import Mathlib

/-!
Verification development for the `sopix` POSIX-shell option-parser generator
(`src/sopix.py`).

The development shallowly embeds, over `List Char`:

* the Python string primitives the generator uses (`str.strip`, `str.split`,
  `string.Template.safe_substitute`, `str.replace`, `textwrap.indent`,
  `%`-formatting with a single `%s`, and the two `re.sub` comment-stripping
  passes with their exact regex semantics);
* the body of `generate_parser` after docstring parsing (lines 144-236 of
  `sopix.py`), as `generateFromModel`;
* the post-parse model construction `_parse_docstring` (lines 239-294),
  parametric in the external `docopt` grammar routines, which the repository
  treats as an out-of-scope collaborator;
* the runtime state machine of the *generated* shell parser, in both the
  `full` and `minimal` rendering styles, derived from the fragment library
  (`HELPERS_FULL`, `HELPERS_MINIMAL`, `BAD_OPTION_FULL`, `BAD_OPTION_MINIMAL`
  and the `SNIPPET` table).

Strings are modelled as `List Char` so that every definition computes by
kernel reduction.  All text constants are byte-for-byte transcriptions of the
constants in `sopix.py` (braces are written with `\x7b`/`\x7d` escapes).
-/

set_option maxRecDepth 100000

namespace Sopix

/-- Strings are modelled as lists of characters. -/
abbrev Str := List Char

/-- Python `str` whitespace for ASCII text: the characters stripped by
`str.strip()` and separating words for `str.split()`. -/
def pyWs (c : Char) : Bool :=
  c = ' ' || c = '\t' || c = '\n' || c = '\x0d' || c = '\x0b' || c = '\x0c'

/-- `str.lstrip()` (no arguments): drop leading whitespace. -/
def stripLeft (s : Str) : Str := s.dropWhile pyWs

/-- `str.rstrip()` (no arguments): drop trailing whitespace. -/
def stripRight (s : Str) : Str := (s.reverse.dropWhile pyWs).reverse

/-- Python `str.strip()` with no arguments. -/
def pyStrip (s : Str) : Str := stripRight (stripLeft s)

theorem len_dropWhile_le (p : Char → Bool) (l : Str) :
    (l.dropWhile p).length ≤ l.length := by
  induction l with
  | nil => simp [List.dropWhile]
  | cons c r ih =>
    simp only [List.dropWhile]
    split
    · exact Nat.le_trans ih (Nat.le_succ _)
    · exact Nat.le_refl _

/-- Python `str.split()` with no arguments: maximal runs of non-whitespace.
`cur` accumulates the current word, reversed. -/
def pySplitGo (cur : Str) : Str → List Str
  | [] => if cur = [] then [] else [cur.reverse]
  | c :: r =>
    if pyWs c then
      if cur = [] then pySplitGo [] r else cur.reverse :: pySplitGo [] r
    else pySplitGo (c :: cur) r

def pySplit (s : Str) : List Str := pySplitGo [] s

/-- Word count with a flag telling whether the previous character was
whitespace (or the start of the string); used to reason about `pySplit`. -/
def cw : Bool → Str → Nat
  | _, [] => 0
  | true, c :: r => if pyWs c then cw true r else 1 + cw false r
  | false, c :: r => if pyWs c then cw true r else cw false r

/-- `startsWith` on character lists. -/
def isPre : Str → Str → Bool
  | [], _ => true
  | _ :: _, [] => false
  | a :: p, b :: s => a = b && isPre p s

/-- Substring test (Python `in` on strings). -/
def occurs (pat : Str) : Str → Bool
  | [] => isPre pat []
  | c :: r => isPre pat (c :: r) || occurs pat r

/-- First line of a text: characters before the first newline. -/
def firstLine (s : Str) : Str := s.takeWhile (fun c => c ≠ '\n')

/-- Python `str.replace(old, new)` for a single-character `old`
(each occurrence replaced, used for `'-'` → `'_'` and `'"'` → `'\"'`). -/
def replaceChar (old : Char) (new : Str) (s : Str) : Str :=
  s.flatMap (fun c => if c = old then new else [c])

/-- `str.lstrip("-")`. -/
def lstripDash (s : Str) : Str := s.dropWhile (fun c => c = '-')

/-- Left-justified padding to `w` characters with spaces:
`"{:{width}}".format(s, width=w)`. -/
def padRight (w : Nat) (s : Str) : Str := s ++ List.replicate (w - s.length) ' '

/-- `"sep".join(xs)`. -/
def joinSep (sep : Str) : List Str → Str
  | [] => []
  | [x] => x
  | x :: y :: r => x ++ sep ++ joinSep sep (y :: r)

/-- Truthiness of a Python optional string: `None` and `""` are falsy. -/
def truthy : Option Str → Bool
  | none => false
  | some s => s ≠ []

/-- Python `a or b` on two optional strings. -/
def pyOr (a b : Option Str) : Option Str := if truthy a then a else b

/-! ### `string.Template.safe_substitute`

`string.Template` uses the delimiter `$` and the identifier pattern
`(?a:[_a-z][_a-z0-9]*)` compiled with `IGNORECASE`: an identifier starts with
`_` or an ASCII letter and continues with `_`, letters and digits.
`safe_substitute` replaces `$$` by `$`, `$name` and `${name}` by the mapped
value when `name` is in the mapping, leaves them verbatim otherwise, and
leaves a `$` that starts no identifier unchanged.  Replacement text is not
rescanned. -/

def isIdStart (c : Char) : Bool :=
  c = '_' || ('a' ≤ c && c ≤ 'z') || ('A' ≤ c && c ≤ 'Z')

def isIdChar (c : Char) : Bool := isIdStart c || ('0' ≤ c && c ≤ '9')

/-- Dictionary lookup (the substitution maps have distinct keys). -/
def lookupS (m : List (Str × Str)) (k : Str) : Option Str :=
  match m with
  | [] => none
  | (k', v) :: r => if k' = k then some v else lookupS r k

/-- Scanner state of `safe_substitute`: plain text, just after a `$`,
inside `${...}` (accumulated identifier reversed), or inside an unbraced
`$name` (accumulated identifier reversed, nonempty). -/
inductive ScanMode
  | normal
  | dollar
  | braced (acc : Str)
  | named (acc : Str)
deriving DecidableEq, Repr

/-- Resolve a completed unbraced `$name`: the mapped value, or the
original text when the name is unmapped. -/
def resolveNamed (m : List (Str × Str)) (id : Str) (cont : Str) : Str :=
  match lookupS m id with
  | some v => v ++ cont
  | none => '$' :: (id ++ cont)

/-- The end-of-input continuation of each scanner state (a `$` that starts
no complete placeholder is left verbatim). -/
def flushMode (m : List (Str × Str)) : ScanMode → Str
  | .normal => []
  | .dollar => ['$']
  | .braced acc => '$' :: '{' :: acc.reverse
  | .named acc => resolveNamed m acc.reverse []

/-- The `safe_substitute` scanner.  `$$` emits `$`; `${name}` and `$name`
emit the mapped value or the original text; a `$` followed by neither is
left as-is and scanning resumes at the following character (which itself
may open a new placeholder only if it is `$`). -/
def substGo (m : List (Str × Str)) : ScanMode → Str → Str
  | mode, [] => flushMode m mode
  | .normal, c :: rest =>
    if c = '$' then substGo m .dollar rest else c :: substGo m .normal rest
  | .dollar, c :: rest =>
    if c = '$' then '$' :: substGo m .normal rest
    else if c = '{' then substGo m (.braced []) rest
    else if isIdStart c then substGo m (.named [c]) rest
    else '$' :: c :: substGo m .normal rest
  | .braced acc, c :: rest =>
    if (if acc = [] then isIdStart c else isIdChar c) then substGo m (.braced (c :: acc)) rest
    else if c = '}' && acc ≠ [] then
      match lookupS m acc.reverse with
      | some v => v ++ substGo m .normal rest
      | none => '$' :: '{' :: (acc.reverse ++ '}' :: substGo m .normal rest)
    else
      '$' :: '{' ::
        (acc.reverse ++ (if c = '$' then substGo m .dollar rest else c :: substGo m .normal rest))
  | .named acc, c :: rest =>
    if isIdChar c then substGo m (.named (c :: acc)) rest
    else
      resolveNamed m acc.reverse
        (if c = '$' then substGo m .dollar rest else c :: substGo m .normal rest)

/-- `string.Template(t).safe_substitute(m)`. -/
def safeSubst (m : List (Str × Str)) (s : Str) : Str := substGo m .normal s

/-- `parser.replace("\t", expand_tabs * " ")`. -/
def expandTabs (n : Nat) (s : Str) : Str :=
  s.flatMap (fun c => if c = '\t' then List.replicate n ' ' else [c])

/-! ### The comment-stripping regular expressions

`strip_comments` applies two `re.sub` passes to the fully assembled text:

* `re.sub('^[\t ]*# [^A-Z].+\n', '', parser, flags=re.MULTILINE)` removes a
  span starting at a line start: optional tabs/spaces, `# `, one character
  that is not an uppercase letter (it may be a newline), at least one
  non-newline character, and a newline.
* `re.sub('  +# .+', '', parser)` removes, inside a line, a span of two or
  more spaces followed by `# ` and at least one non-newline character,
  running to the end of the line. -/

def isUpper (c : Char) : Bool := 'A' ≤ c && c ≤ 'Z'

/-- Split a text on newlines (the list always has one more element than
the text has newlines; the last element is the text after the final
newline, possibly empty). -/
def splitNl : Str → List Str
  | [] => [[]]
  | c :: r =>
    if c = '\n' then [] :: splitNl r
    else
      match splitNl r with
      | l :: ls => (c :: l) :: ls
      | [] => [[c]]

/-- `'\n'.join`: the inverse of `splitNl`. -/
def joinNl (ls : List Str) : Str := joinSep "\n".data ls

/-- The line-comment regex matched entirely inside one newline-terminated
line: `[\t ]*`, then `# `, then one character that is not an uppercase
letter, then at least one more character (`.+`), with the line's newline
completing the match. -/
def matchComment1 (l : Str) : Bool :=
  match l.dropWhile (fun c => c = '\t' || c = ' ') with
  | '#' :: ' ' :: c :: _ :: _ => !isUpper c
  | _ => false

/-- The cross-line form of the line-comment regex: the line is exactly
`[\t ]*# `, the `[^A-Z]` character is its newline, and `.+\n` is the whole
following line, which must be nonempty and itself newline-terminated. -/
def matchComment2 (l : Str) : Bool :=
  l.dropWhile (fun c => c = '\t' || c = ' ') == ['#', ' ']

/-- The first `re.sub` pass (line comments) over the line decomposition:
matches start only at line starts; a match removes the line (or, in the
cross-line form, the line and its nonempty successor); the final segment
(no trailing newline) never matches. -/
def lineStripL : List Str → List Str
  | [] => []
  | [l] => [l]
  | l :: l2 :: rest =>
    if matchComment1 l then lineStripL (l2 :: rest)
    else if matchComment2 l && l2 ≠ [] && rest ≠ [] then lineStripL rest
    else l :: lineStripL (l2 :: rest)

def lineStrip (s : Str) : Str := joinNl (lineStripL (splitNl s))

/-- The inline-comment regex `  +# .+` tried at the head of a
(newline-free) line suffix: two or more spaces — the run must be maximal,
since backtracking cannot place `#` on a space — then `# ` and at least
one more character. -/
def matchInl (l : Str) : Bool :=
  match l with
  | ' ' :: ' ' :: _ =>
    match l.dropWhile (fun c => c = ' ') with
    | '#' :: ' ' :: _ :: _ => true
    | _ => false
  | _ => false

/-- Apply the inline-comment regex to one newline-free line: truncate at
the first position where it matches (the match runs to the line's end). -/
def inlineLine : Str → Str
  | [] => []
  | c :: r => if matchInl (c :: r) then [] else c :: inlineLine r

/-- The second `re.sub` pass (inline comments). -/
def inlineStrip (s : Str) : Str := joinNl ((splitNl s).map inlineLine)

/-! ### `%`-formatting with one string argument (`line % opt_name`) -/

/-- `fmt % arg` for a single (non-tuple) string argument: `%s` inserts the
argument (exactly once), `%%` is a literal percent; any other conversion, a
trailing `%`, a second `%s`, or an unconsumed argument is an error
(`TypeError`/`ValueError` in Python), modelled as `none`.  `pend` records
an unprocessed `%`, `used` whether the argument was consumed. -/
def pyFormat1Go (arg : Str) : Bool → Bool → Str → Option Str
  | pend, used, [] => if pend then none else if used then some [] else none
  | pend, used, c :: r =>
    if pend then
      if c = 's' then
        if used then none
        else (pyFormat1Go arg false true r).map (fun t => arg ++ t)
      else if c = '%' then (pyFormat1Go arg false used r).map (fun t => '%' :: t)
      else none
    else
      if c = '%' then pyFormat1Go arg true used r
      else (pyFormat1Go arg false used r).map (fun t => c :: t)

def pyFormat1 (fmt arg : Str) : Option Str := pyFormat1Go arg false false fmt

/-- The success predicate of `pyFormat1Go`: the format string holds exactly
one `%s` and no other conversion. -/
def fmtOkGo : Bool → Bool → Str → Bool
  | pend, used, [] => !pend && used
  | pend, used, c :: r =>
    if pend then
      if c = 's' then !used && fmtOkGo false true r
      else if c = '%' then fmtOkGo false used r
      else false
    else
      if c = '%' then fmtOkGo true used r
      else fmtOkGo false used r

/-! ### `textwrap.indent(text, 2 * "\t")` -/

/-- One line of `textwrap.indent` with prefix `"\t\t"`: lines with a
non-whitespace character get the prefix. -/
def indentLine (l : Str) : Str :=
  if pyStrip l = [] then l else '\t' :: '\t' :: l

/-- `textwrap.indent(text, 2 * "\t")`. -/
def indentTT (s : Str) : Str := joinNl ((splitNl s).map indentLine)

/-- `.lstrip("\t")`. -/
def lstripTab (s : Str) : Str := s.dropWhile (fun c => c = '\t')

/-! ### The usage-line rewrite

`re.sub(r'^(usage:\s+)\S+', '\g<1>$CMD', usage_msg, count=1,
flags=re.IGNORECASE)`: without `MULTILINE` the anchor `^` only matches at
position 0, so at most the first usage token is replaced. -/

def lowerChar (c : Char) : Char :=
  if 'A' ≤ c ∧ c ≤ 'Z' then Char.ofNat (c.toNat + 32) else c

def ciIsPre (p s : Str) : Bool :=
  match p, s with
  | [], _ => true
  | _ :: _, [] => false
  | a :: p', b :: s' => lowerChar a = lowerChar b && ciIsPre p' s'

def usageSub (s : Str) : Str :=
  if ciIsPre "usage:".data s then
    let rest := s.drop 6
    let wsrun := rest.takeWhile pyWs
    if wsrun = [] then s
    else
      let rest2 := rest.dropWhile pyWs
      let tok := rest2.takeWhile (fun c => !pyWs c)
      if tok = [] then s
      else s.take 6 ++ wsrun ++ "$CMD".data ++ rest2.drop tok.length
  else s

/-! ### The fragment library of `sopix.py`

Byte-for-byte transcriptions of the module-level string constants
(`PARSER_TEMPLATE`, `HELPERS_FULL`, `HELPERS_MINIMAL`, `BAD_OPTION_FULL`,
`BAD_OPTION_MINIMAL`, `RANDOM_EOL`, `DEBUG_PRINT` and the `SNIPPET` table).
Braces are written `\x7b`/`\x7d`; the Python sources are raw strings, so
backslashes there are literal and appear doubled here. -/

/-- The placeholder `${__SHEBANG__}` opening `PARSER_TEMPLATE`; split out
(together with the following `"\n\nCMD="`) so that theorems about the head
of the generated text can peel the template apart. -/
def TMPL_SHEBANG_PH : Str := "$\x7b__SHEBANG__\x7d".data

/-- `PARSER_TEMPLATE` from the character after `CMD=` onwards. -/
def TMPL_REST : Str :=
  "$\x7b__CMD__\x7d$\x7b__STRIP_EXT__\x7d\n".data ++
  "USAGE=\"$\x7b__USAGE_MSG__\x7d\"$\x7b__HELP__\x7d\n".data ++
  "\n".data ++
  "# Convenience functions\n".data ++
  "$\x7b__HELPERS__\x7d\n".data ++
  "\n".data ++
  "# Parse command-line options$\x7b__RANDOM_EOL__\x7d\n".data ++
  "set -- \"$@\" \"$\x7bEOL:=$(printf '\\1\\3\\3\\7')\x7d\"  # end-of-line-marker$\x7b__AUX_VARS__\x7d\n".data ++
  "while [ \"$1\" != \"$EOL\" ]; do\n".data ++
  "\topt=\"$1\"; shift\n".data ++
  "\tcase \"$opt\" in\n".data ++
  "\n".data ++
  "\t\t#EDIT HERE: defined options\n".data ++
  "\t\t$\x7b__CASES__\x7d\n".data ++
  "\t\t-h | --help ) $\x7b__ASSERT_NOARG__\x7dprintf \"%s\\n\" \"$\x7b__HELP_VAR__\x7d\"; exit 0;;\n".data ++
  "\n".data ++
  "\t\t# parse remaining arguments as positional\n".data ++
  "\t\t--) while [ \"$1\" != \"$EOL\" ]; do set -- \"$@\" \"$1\"; shift; done;;\n".data ++
  "\t\t# long options: convert \"--opt=arg\" to \"--opt\" \"arg\"\n".data ++
  "\t\t--[!=]*=*) $\x7b__LONG_OPTION__\x7d\n".data ++
  "\t\t# invalid or unknown options\n".data ++
  "\t\t$\x7b__BAD_OPTION__\x7d\n".data ++
  "\t\t# short options: convert \"-abc\" to \"-a\" \"-bc\"\n".data ++
  "\t\t-?*) $\x7b__SHORT_OPTION__\x7d\n".data ++
  "\t\t# positional argument, rotate to the end\n".data ++
  "\t\t*) set -- \"$@\" \"$opt\";;\n".data ++
  "\tesac\n".data ++
  "done; shift  # $EOL\n".data ++
  "\n".data ++
  "# Set/unset variables$\x7b__DEFAULTS__\x7d\n".data ++
  "unset $\x7b__UNSET_VARS__\x7d\n".data ++
  "unset -f $\x7b__UNSET_FUNCS__\x7d\n".data ++
  "\n".data ++
  "$\x7b__DEBUG_PRINT__\x7d\n".data

/-- `PARSER_TEMPLATE` (sopix.py lines 10-47). -/
def PARSER_TEMPLATE : Str := TMPL_SHEBANG_PH ++ "\n\nCMD=".data ++ TMPL_REST

/-- `HELPERS_FULL` (sopix.py lines 49-63). -/
def HELPERS_FULL : Str :=
  "assert_arg () \x7b\n".data ++
  "\tif [ \"$1\" = \"$EOL\" ] ||\n".data ++
  "\t\t\t\x7b [ \"$1\" = '--' ] && [ \"$2\" != \"--\" ]; \x7d ||\n".data ++
  "\t\t\t\x7b [ \"$\x7b3%?\x7d\" = '-' ] && [ \"$3\" = \"$4\" ]; \x7d\n".data ++
  "\t\tthen exit_usage \"missing argument for option '$3'\"\n".data ++
  "\tfi\n".data ++
  "\x7d\n".data ++
  "assert_noarg () \x7b  # for long options only\n".data ++
  "\tif [ \"$1\" = \"$2\" ]\n".data ++
  "\t\tthen exit_usage \"option '$2' doesn't accept arguments\"\n".data ++
  "\tfi\n".data ++
  "\x7d\n".data ++
  "exit_error () \x7b printf >&2 \"%s:  ERROR: %s\\n\" \"$CMD\" \"$1\"; exit \"$\x7b2-1\x7d\"; \x7d  # default exit status: 1\n".data ++
  "exit_usage () \x7b printf >&2 \"%s:  %s\\n%s\\n\" \"$CMD\" \"$1\" \"$USAGE\"; exit 2; \x7d".data

/-- `HELPERS_MINIMAL` (sopix.py lines 65-67). -/
def HELPERS_MINIMAL : Str :=
  "exit2 () \x7b printf >&2 \"%s:  %s: '%s'\\n%s\\n\" \"$CMD\" \"$1\" \"$2\" \"$USAGE\"; exit 2; \x7d\n".data ++
  "check () \x7b \x7b [ \"$1\" != \"$EOL\" ] && [ \"$1\" != '--' ]; \x7d || exit2 \"missing argument\" \"$2\"; \x7d".data

/-- `BAD_OPTION_FULL` (sopix.py lines 69-73). -/
def BAD_OPTION_FULL : Str :=
  "--*[!-a-z0-9]* | --*--*) exit_usage \"invalid option: '$opt'\";;\n".data ++
  "\t\t--[a-z0-9]*[a-z0-9])     exit_usage \"unknown long option: '$opt'\";;\n".data ++
  "\t\t-*[!A-Za-z0-9]*)         exit_usage \"invalid option: '$opt'\";;\n".data ++
  "\t\t-[A-Za-z0-9])            exit_usage \"unknown short option: '$opt'\";;".data

/-- `BAD_OPTION_MINIMAL` (sopix.py line 75). -/
def BAD_OPTION_MINIMAL : Str :=
  "-[A-Za-z0-9] | -*[!A-Za-z0-9]*) exit2 \"invalid option\" \"$opt\";;".data

/-- `RANDOM_EOL` (sopix.py lines 77-80). -/
def RANDOM_EOL : Str :=
  "\nif [ -c /dev/random ]  # try to obtain a random string\n".data ++
  "\tthen EOL=$(dd 2>/dev/null if=/dev/random bs=8 count=1 | od -t x8 -A n)\n".data ++
  "fi  # fall back to a fixed *binary* string if it fails".data

/-- `DEBUG_PRINT.format(names)` (sopix.py lines 82-87): the raw constant
with its one `{}` field replaced by `names` and `{{`/`}}` unescaped, which
is what `str.format` produces on this fixed format string. -/
def debugPrintText (names : Str) : Str :=
  "# Print collected options and arguments\n".data ++
  "$\x7b__DEBUG_IF__\x7dfor var in ".data ++ names ++
  "\n\tdo eval \"printf \\\"%s = '%s'\\n\\\" '$var' \\\"\\$\x7bopt_$var-\x7d\\\"\"\n".data ++
  "done && printf \"\\$@ = (%s)\\n\" \"$*\"\n".data

/-- `SNIPPET['cmd']`. -/
def SNIPPET_cmd : Str := "\"$\x7b0##*/\x7d\"".data

/-- `SNIPPET['strip_ext']`. -/
def SNIPPET_strip_ext : Str :=
  "; [ \"$\x7bCMD%.*\x7d\" ] && CMD=\"$\x7bCMD%.*\x7d\"  # \"bin/script.sh\" -> \"script\"".data

/-- `SNIPPET['help']` (a real newline: the Python literal is not raw). -/
def SNIPPET_help : Str := "\nHELP_MSG=\"$\x7b__HELP_MSG__\x7d\"".data

/-- `SNIPPET['aux_vars'][False]`. -/
def SNIPPET_aux_vars_full : Str :=
  "\nlong=; short=; val=  # last long/short option/value split\n".data

/-- `SNIPPET['assert_arg']` for both styles. -/
def SNIPPET_assert_arg (minimal : Bool) : Str :=
  if minimal then "check \"$1\" \"$opt\"; opt_%s=\"$1\"; shift;;".data
  else "assert_arg \"$1\" \"$val\" \"$opt\" \"$short\"; opt_%s=\"$1\"; shift;;".data

/-- `SNIPPET['assert_noarg']` for both styles (the full form ends with a
space; the minimal form is empty). -/
def SNIPPET_assert_noarg (minimal : Bool) : Str :=
  if minimal then [] else "assert_noarg \"$opt\" \"$long\"; ".data

/-- `SNIPPET['long_option']`. -/
def SNIPPET_long_option (minimal : Bool) : Str :=
  if minimal then "set -- \"$\x7bopt%%=*\x7d\" \"$\x7bopt#*=\x7d\" \"$@\";;".data
  else "long=\"$\x7bopt%%=*\x7d\"; val=\"$\x7bopt#*=\x7d\"; set -- \"$long\" \"$val\" \"$@\";;".data

/-- `SNIPPET['short_option']`. -/
def SNIPPET_short_option (minimal : Bool) : Str :=
  if minimal then "other=\"$\x7bopt#-?\x7d\"; set -- \"$\x7bopt%$other\x7d\" \"-$\x7bother\x7d\" \"$@\";;".data
  else "other=\"$\x7bopt#-?\x7d\"; short=\"$\x7bopt%$other\x7d\"; set -- \"$short\" \"-$\x7bother\x7d\" \"$@\";;".data

/-- `SNIPPET['unset_vars']`. -/
def SNIPPET_unset_vars (minimal : Bool) : Str :=
  if minimal then "CMD EOL USAGE opt other".data
  else "EOL HELP long opt other short val # CMD USAGE".data

/-- `SNIPPET['unset_funcs']`. -/
def SNIPPET_unset_funcs (minimal : Bool) : Str :=
  if minimal then "check exit2".data
  else "assert_arg assert_noarg # exit_error exit_usage".data

/-- `SNIPPET['debug_if']` (note the trailing space). -/
def SNIPPET_debug_if : Str := "[ \"$\x7bSOPIX_DEBUG-\x7d\" ] && ".data

/-- `SNIPPET['helpers']`. -/
def SNIPPET_helpers (minimal : Bool) : Str :=
  if minimal then HELPERS_MINIMAL else HELPERS_FULL

/-- `SNIPPET['aux_vars']`. -/
def SNIPPET_aux_vars (minimal : Bool) : Str :=
  if minimal then [] else SNIPPET_aux_vars_full

/-- `SNIPPET['bad_option']`. -/
def SNIPPET_bad_option (minimal : Bool) : Str :=
  if minimal then BAD_OPTION_MINIMAL else BAD_OPTION_FULL

/-! ### The data model consumed from the external grammar parser -/

/-- One declared option, as delivered by the external grammar parser
(`docopt.Option`): optional short and long spellings, the number of
arguments it takes (0 or 1), and the `[default: ...]` value (`none` models
Python `None`; options that take no argument never consult `value`). -/
structure Opt where
  short : Option Str
  long : Option Str
  argcount : Nat
  value : Option Str
deriving DecidableEq, Repr

/-- The keyword arguments of `generate_parser` (sopix.py lines 130-139). -/
structure Config where
  minimal : Bool
  strip_comments : Bool
  expand_tabs : Int
  shebang : Str
  command : Option Str
  keep_command_ext : Bool
  random_eol : Bool
  debug_print : Option Bool
deriving DecidableEq, Repr

/-- The default keyword arguments of `generate_parser`. -/
def defaultConfig : Config :=
  { minimal := false, strip_comments := false, expand_tabs := 4,
    shebang := "/bin/sh -eu".data, command := none, keep_command_ext := false,
    random_eol := false, debug_print := none }

/-- The result of `_parse_docstring`. -/
structure ParseModel where
  parsed_cmd : Option Str
  usage_msg : Str
  help_msg : Str
  options : List Opt
deriving DecidableEq, Repr

/-- Failures of the option-loop in `generate_parser`:
`attrError` models the `AttributeError` of
`(opt.long or opt.short).lstrip("-")` when both spellings are falsy, and
`formatError` models a `TypeError`/`ValueError` of `line % opt_name` (a
`%` in an option spelling). -/
inductive BuildErr
  | attrError
  | formatError
deriving DecidableEq, Repr

/-- Failures of `generate_parser` after docstring parsing. -/
inductive GenErr
  | invalidShebang (sheb : Str)
  | build (e : BuildErr)
deriving DecidableEq, Repr

/-! ### `generate_parser` after `_parse_docstring` (sopix.py lines 144-236) -/

/-- The shebang validation and normalisation (lines 144-150). -/
def shebangCheck (shebang : Str) : Except GenErr Str :=
  if shebang ≠ [] then
    if '\n' ∈ shebang ∨ 2 < (pySplit shebang).length then
      .error (.invalidShebang shebang)
    else if !isPre "#!".data shebang then .ok ("#!".data ++ pyStrip shebang)
    else .ok shebang
  else .ok shebang

/-- `max((len(o.long or '') for o in options), default=0)` (line 179). -/
def maxLongLen (options : List Opt) : Nat :=
  options.foldl
    (fun acc o => max acc (if truthy o.long then (o.long.getD []).length else 0)) 0

/-- One iteration of the option loop (lines 180-196): `none` when the
option is skipped (`opt_name == 'help'` and no argument), otherwise the
case line together with the `(name, default_value)` pair. -/
def buildCasesStep (minimal : Bool) (max_len : Nat) (o : Opt) :
    Except BuildErr (Option (Str × (Str × Str))) :=
  match pyOr o.long o.short with
  | none => .error .attrError
  | some spelling =>
    let opt_name := replaceChar '-' "_".data (lstripDash spelling)
    let l1 := if truthy o.short then o.short.getD [] else "  ".data
    let l2 := l1 ++
      (if truthy o.short && truthy o.long then " | ".data
       else if max_len ≠ 0 then "   ".data else [])
    let base := l2 ++ padRight max_len (if truthy o.long then o.long.getD [] else []) ++ " ) ".data
    if o.argcount ≠ 0 then
      let line := base ++ SNIPPET_assert_arg minimal
      let default_value : Str :=
        match o.value with
        | none => []
        | some v => '"' :: (replaceChar '"' "\\\"".data v ++ "\"".data)
      match pyFormat1 line opt_name with
      | some l => .ok (some (l, (opt_name, default_value)))
      | none => .error .formatError
    else if opt_name = "help".data then .ok none
    else
      let line := base ++
        (if truthy o.long then SNIPPET_assert_noarg minimal else []) ++
        "opt_%s=\"true\";;".data
      match pyFormat1 line opt_name with
      | some l => .ok (some (l, (opt_name, [])))
      | none => .error .formatError

/-- The full option loop: the `cases` list and the `name_default` list
(lines 177-196). -/
def buildCases (minimal : Bool) (max_len : Nat) :
    List Opt → Except BuildErr (List Str × List (Str × Str))
  | [] => .ok ([], [])
  | o :: rest => do
    let r ← buildCasesStep minimal max_len o
    let (cs, nds) ← buildCases minimal max_len rest
    match r with
    | none => .ok (cs, nds)
    | some (l, nd) => .ok (l :: cs, nd :: nds)

/-- `'${opt_%s=%s}' % n_d` (line 208). -/
def defaultEntry (nd : Str × Str) : Str :=
  "$\x7bopt_".data ++ nd.1 ++ "=".data ++ nd.2 ++ "\x7d".data

/-- The first-pass substitution map (lines 224-230). -/
def earlyMap (snHelp snCases snHelpers snRandomEol snBadOption snDebugPrint : Str) :
    List (Str × Str) :=
  [("__HELP__".data, snHelp),
   ("__CASES__".data, snCases),
   ("__HELPERS__".data, snHelpers),
   ("__RANDOM_EOL__".data, snRandomEol),
   ("__BAD_OPTION__".data, snBadOption),
   ("__DEBUG_PRINT__".data, snDebugPrint)]

/-- The second-pass substitution map (lines 231-236): the first-pass map
with the remaining entries appended. -/
def lateMap (early : List (Str × Str)) (sheb snCmd snStripExt usage_msg : Str)
    (helpMsgEntry : List (Str × Str))
    (snHelpVar snAuxVars snAssertNoarg snLongOption snShortOption snDefaults
     snUnsetVars snUnsetFuncs snDebugIf : Str) : List (Str × Str) :=
  early ++
    [("__SHEBANG__".data, sheb),
     ("__CMD__".data, snCmd),
     ("__STRIP_EXT__".data, snStripExt),
     ("__USAGE_MSG__".data, usage_msg)] ++ helpMsgEntry ++
    [("__HELP_VAR__".data, snHelpVar),
     ("__AUX_VARS__".data, snAuxVars),
     ("__ASSERT_NOARG__".data, snAssertNoarg),
     ("__LONG_OPTION__".data, snLongOption),
     ("__SHORT_OPTION__".data, snShortOption),
     ("__DEFAULTS__".data, snDefaults),
     ("__UNSET_VARS__".data, snUnsetVars),
     ("__UNSET_FUNCS__".data, snUnsetFuncs),
     ("__DEBUG_IF__".data, snDebugIf)]

/-- The body of `generate_parser` after `_parse_docstring`
(sopix.py lines 144-236). -/
def generateFromModel (pm : ParseModel) (cfg : Config) : Except GenErr Str := do
  -- Shebang (lines 144-150)
  let sheb ← shebangCheck cfg.shebang
  -- Command name (lines 152-155)
  let resolved_cmd := pyOr cfg.command pm.parsed_cmd
  let snCmd := if truthy resolved_cmd then resolved_cmd.getD [] else SNIPPET_cmd
  let snStripExt :=
    if cfg.keep_command_ext || truthy pm.parsed_cmd then [] else SNIPPET_strip_ext
  -- Usage and help messages (lines 157-167)
  let usage_msg := if truthy resolved_cmd then usageSub pm.usage_msg else pm.usage_msg
  let snHelp := if pyStrip pm.help_msg = "$USAGE".data then [] else SNIPPET_help
  let helpMsgEntry : List (Str × Str) :=
    if pyStrip pm.help_msg = "$USAGE".data then []
    else [("__HELP_MSG__".data, pm.help_msg)]
  let snHelpVar :=
    if pyStrip pm.help_msg = "$USAGE".data then "$USAGE".data else "$HELP_MSG".data
  -- Options (lines 177-200)
  let max_len := maxLongLen pm.options
  let cnd ← (buildCases cfg.minimal max_len pm.options).mapError .build
  let snCases := lstripTab (indentTT (joinSep "\n".data cnd.1))
  -- Defaults (lines 207-209)
  let defaults :=
    "\n: \"".data ++ joinSep "\" \"".data (cnd.2.map defaultEntry) ++ "\"".data
  let snDefaults := if cfg.minimal then [] else defaults
  -- Debug print (lines 217-222)
  let printfTxt :=
    if cfg.debug_print = some false then []
    else debugPrintText (joinSep " ".data (cnd.2.map (·.1)))
  let snDebugIf := if cfg.debug_print = none then SNIPPET_debug_if else []
  -- The two substitution passes (lines 224-236)
  let early : List (Str × Str) :=
    earlyMap snHelp snCases (SNIPPET_helpers cfg.minimal)
      (if cfg.random_eol then RANDOM_EOL else [])
      (SNIPPET_bad_option cfg.minimal) printfTxt
  let late : List (Str × Str) :=
    lateMap early sheb snCmd snStripExt usage_msg helpMsgEntry snHelpVar
      (SNIPPET_aux_vars cfg.minimal) (SNIPPET_assert_noarg cfg.minimal)
      (SNIPPET_long_option cfg.minimal) (SNIPPET_short_option cfg.minimal)
      snDefaults (SNIPPET_unset_vars cfg.minimal)
      (SNIPPET_unset_funcs cfg.minimal) snDebugIf
  let p1 := safeSubst early PARSER_TEMPLATE
  let p2 := if 0 < cfg.expand_tabs then expandTabs cfg.expand_tabs.toNat p1 else p1
  let p3 := safeSubst late p2
  let p4 := if cfg.strip_comments then inlineStrip (lineStrip p3) else p3
  .ok (pyStrip p4 ++ "\n".data)

/-! ### Runtime semantics of the generated parser

The generated script is a single `while` loop over `"$@"` with the marker
`EOL` appended; its behaviour is fully determined by the emitted `case`
arms.  The model below follows the emitted text arm by arm, for both
rendering styles.  Observables: the `opt_<identifier>` variable bindings,
the final positional-argument list, and the exit kind (normal, usage error
with its diagnostic, or help). -/

/-- The fixed end-of-line marker: `printf '\1\3\3\7'` emits the bytes
1, 3, 3, 7. -/
def eolTok : Str := ['\x01', '\x03', '\x03', '\x07']

/-- `"--"`. -/
def dd : Str := "--".data

/-- The option identifier `(opt.long or opt.short).lstrip("-").replace("-", "_")`
(line 181), for options where at least one spelling is present. -/
def optIdent (o : Opt) : Str :=
  replaceChar '-' "_".data (lstripDash ((pyOr o.long o.short).getD []))

/-- The options that receive a generated case arm: the loop skips an option
exactly when it takes no argument and its identifier is `help` (line 188). -/
def armOpts (options : List Opt) : List Opt :=
  options.filter (fun o => o.argcount ≠ 0 || optIdent o ≠ "help".data)

/-- Whether a declared spelling (as emitted into the case pattern) matches
token `t`: a falsy spelling contributes only whitespace to the pattern. -/
def spellingIs (os : Option Str) (t : Str) : Bool :=
  match os with
  | some s => !s.isEmpty && s == t
  | none => false

/-- The first case arm whose pattern matches the token. -/
def findArm (arms : List Opt) (t : Str) : Option Opt :=
  arms.find? (fun o => spellingIs o.short t || spellingIs o.long t)

def isLowerDigit (c : Char) : Bool := ('a' ≤ c && c ≤ 'z') || ('0' ≤ c && c ≤ '9')

def isAlnum (c : Char) : Bool := isUpper c || isLowerDigit c

/-- Shell pattern `--*[!-a-z0-9]* | --*--*` (first `BAD_OPTION_FULL` arm). -/
def badLongInvalid (t : Str) : Bool :=
  match t with
  | '-' :: '-' :: rest =>
    rest.any (fun c => !(c = '-' || isLowerDigit c)) || occurs dd rest
  | _ => false

/-- Shell pattern `--[a-z0-9]*[a-z0-9]` (second `BAD_OPTION_FULL` arm). -/
def badLongUnknown (t : Str) : Bool :=
  match t with
  | '-' :: '-' :: rest =>
    2 ≤ rest.length && isLowerDigit (rest.headD ' ') && isLowerDigit (rest.getLastD ' ')
  | _ => false

/-- Shell pattern `-*[!A-Za-z0-9]*` (third `BAD_OPTION_FULL` arm, also in
`BAD_OPTION_MINIMAL`). -/
def badShortInvalid (t : Str) : Bool :=
  match t with
  | '-' :: rest => rest.any (fun c => !isAlnum c)
  | _ => false

/-- Shell pattern `-[A-Za-z0-9]` (fourth `BAD_OPTION_FULL` arm, also in
`BAD_OPTION_MINIMAL`). -/
def badShortUnknown (t : Str) : Bool :=
  match t with
  | ['-', c] => isAlnum c
  | _ => false

/-- Shell pattern `--[!=]*=*` (the long-option `=`-splitting arm). -/
def eqSplitMatches (t : Str) : Bool :=
  match t with
  | '-' :: '-' :: c :: rest => c ≠ '=' && rest.contains '='
  | _ => false

/-- `${opt%%=*}`: the part before the first `=`. -/
def beforeEq (t : Str) : Str := t.takeWhile (fun c => !(c == '='))

/-- `${opt#*=}`: the part after the first `=`. -/
def afterEq (t : Str) : Str := (t.dropWhile (fun c => !(c == '='))).drop 1

/-- Variable state of the running parser. `queue` is `"$@"` (the `EOL`
marker included); `binds` are the `opt_<identifier>` variables keyed by
identifier; `longV`/`valV`/`shortV` are the full style's scratch variables
`long`/`val`/`short` (initialised to empty by the aux-vars fragment and
unused by the minimal style). -/
structure LoopState where
  queue : List Str
  binds : List (Str × Str)
  longV : Str
  valV : Str
  shortV : Str
deriving DecidableEq, Repr

/-- Shell assignment `opt_n=v`: overwrite or append. -/
def bindUpd : List (Str × Str) → Str → Str → List (Str × Str)
  | [], n, v => [(n, v)]
  | (n', v') :: r, n, v =>
    if n' = n then (n, v) :: r else (n', v') :: bindUpd r n v

/-- Observable outcome of running the generated parser. -/
inductive RunRes
  | ok (binds : List (Str × Str)) (pos : List Str)
  | usage (diag : Str)
  | help
deriving DecidableEq, Repr

inductive StepOut
  | next (s : LoopState)
  | usageExit (diag : Str)
  | helpExit
  | diverge
deriving DecidableEq, Repr

/-- One execution of the `case "$opt"` statement on token `t` for the
*full* rendering, with `q` the queue after `opt="$1"; shift`.  The arms
appear in emitted order: declared options, the hardcoded help arm, `--`,
the `=`-split, the four `BAD_OPTION_FULL` arms, the short-option split,
and the positional default. -/
def caseStepFull (arms : List Opt) (st : LoopState) (t : Str)
    (q : List Str) : StepOut :=
  match findArm arms t with
  | some o =>
    if o.argcount ≠ 0 then
      -- assert_arg "$1" "$val" "$opt" "$short"
      if q.headD [] == eolTok || (q.headD [] == dd && !(st.valV == dd)) ||
          (t.dropLast == "-".data && t == st.shortV) then
        .usageExit ("missing argument for option '".data ++ t ++ "'".data)
      else
        .next { st with queue := q.drop 1,
                        binds := bindUpd st.binds (optIdent o) (q.headD []) }
    else
      -- assert_noarg "$opt" "$long" (emitted only when a long form exists)
      if truthy o.long && t == st.longV then
        .usageExit ("option '".data ++ st.longV ++ "' doesn't accept arguments".data)
      else .next { st with queue := q, binds := bindUpd st.binds (optIdent o) "true".data }
  | none =>
    if t == "-h".data || t == "--help".data then
      if t == st.longV then
        .usageExit ("option '".data ++ st.longV ++ "' doesn't accept arguments".data)
      else .helpExit
    else if t == dd then
      -- --) while [ "$1" != "$EOL" ]; do set -- "$@" "$1"; shift; done;;
      if q.contains eolTok then
        .next { st with
          queue := eolTok ::
            ((q.dropWhile (fun x => !(x == eolTok))).drop 1 ++
              q.takeWhile (fun x => !(x == eolTok))) }
      else .diverge
    else if eqSplitMatches t then
      .next { st with queue := beforeEq t :: afterEq t :: q,
                      longV := beforeEq t, valV := afterEq t }
    else if badLongInvalid t then
      .usageExit ("invalid option: '".data ++ t ++ "'".data)
    else if badLongUnknown t then
      .usageExit ("unknown long option: '".data ++ t ++ "'".data)
    else if badShortInvalid t then
      .usageExit ("invalid option: '".data ++ t ++ "'".data)
    else if badShortUnknown t then
      .usageExit ("unknown short option: '".data ++ t ++ "'".data)
    else if t.headD ' ' = '-' && 2 ≤ t.length then
      -- -?*) other="${opt#-?}"; short="${opt%$other}"; ...
      -- every earlier arm failed, so t.drop 2 is alphanumeric and the
      -- unquoted pattern `%$other` strips it literally
      .next { st with queue := t.take 2 :: ('-' :: t.drop 2) :: q, shortV := t.take 2 }
    else .next { st with queue := q ++ [t] }

/-- One execution of the `case "$opt"` statement for the *minimal*
rendering: `check "$1" "$opt"` in place of `assert_arg`, no
`assert_noarg`, `BAD_OPTION_MINIMAL` in place of the four full arms, and
no scratch variables. -/
def caseStepMin (arms : List Opt) (st : LoopState) (t : Str)
    (q : List Str) : StepOut :=
  match findArm arms t with
  | some o =>
    if o.argcount ≠ 0 then
      -- check "$1" "$opt"
      if q.headD [] == eolTok || q.headD [] == dd then
        .usageExit ("missing argument: '".data ++ t ++ "'".data)
      else
        .next { st with queue := q.drop 1,
                        binds := bindUpd st.binds (optIdent o) (q.headD []) }
    else .next { st with queue := q, binds := bindUpd st.binds (optIdent o) "true".data }
  | none =>
    if t == "-h".data || t == "--help".data then .helpExit
    else if t == dd then
      if q.contains eolTok then
        .next { st with
          queue := eolTok ::
            ((q.dropWhile (fun x => !(x == eolTok))).drop 1 ++
              q.takeWhile (fun x => !(x == eolTok))) }
      else .diverge
    else if eqSplitMatches t then
      .next { st with queue := beforeEq t :: afterEq t :: q }
    else if badShortUnknown t || badShortInvalid t then
      .usageExit ("invalid option: '".data ++ t ++ "'".data)
    else if t.headD ' ' = '-' && 2 ≤ t.length then
      .next { st with queue := t.take 2 :: ('-' :: t.drop 2) :: q }
    else .next { st with queue := q ++ [t] }

/-- The `case` statement of the selected rendering style. -/
def caseStep (minimal : Bool) (arms : List Opt) (st : LoopState) (t : Str)
    (q : List Str) : StepOut :=
  if minimal then caseStepMin arms st t q else caseStepFull arms st t q

/-- The outer loop `while [ "$1" != "$EOL" ]` with fuel. -/
def runLoop (minimal : Bool) (arms : List Opt) : Nat → LoopState → Option RunRes
  | 0, _ => none
  | fuel + 1, st =>
    match st.queue with
    | [] => none
    | t :: q =>
      if t == eolTok then some (.ok st.binds q)
      else
        match caseStep minimal arms st t q with
        | .next st' => runLoop minimal arms fuel st'
        | .usageExit d => some (.usage d)
        | .helpExit => some .help
        | .diverge => none

/-- The runtime value of a generated default: `${opt_x=}` for flags and
argument options without a declared default, `${opt_x="v"}` otherwise
(`v` shell-quoted, evaluating back to `v` for shell-literal values). -/
def nameDefaults (options : List Opt) : List (Str × Str) :=
  (armOpts options).map
    (fun o => (optIdent o, if o.argcount ≠ 0 then o.value.getD [] else []))

/-- `: "${opt_a=..}" "${opt_b=..}" ...`: set unset option variables. -/
def applyDefaults : List (Str × Str) → List (Str × Str) → List (Str × Str)
  | [], b => b
  | (n, d) :: r, b =>
    applyDefaults r (if (b.find? (fun p => p.1 == n)).isSome then b else b ++ [(n, d)])

/-- Run the generated parser for the given option model and style on an
argument vector.  The full style additionally seeds declared defaults
after the loop; the minimal style emits no defaults block. -/
def runShellParser (minimal : Bool) (options : List Opt) (argv : List Str)
    (fuel : Nat) : Option RunRes :=
  let st : LoopState :=
    { queue := argv ++ [eolTok], binds := [], longV := [], valV := [], shortV := [] }
  match runLoop minimal (armOpts options) fuel st with
  | some (.ok b pos) =>
    some (.ok (if minimal then b else applyDefaults (nameDefaults options) b) pos)
  | r => r

/-- The option model that the grammar parser produces for the module's
`DOC_EXAMPLE` spec (the spec used by `tests/test_generated.py`): options
`-h, --help`, `-f, --flag`, `-n TEXT, --name=TEXT [default: Alice]`,
`--only-long` and `-v`, deduplicated and sorted by
`(long or '', short or '')` as in `_parse_docstring`. -/
def docExampleOpts : List Opt := [
  { short := some "-v".data, long := none, argcount := 0, value := none },
  { short := some "-f".data, long := some "--flag".data, argcount := 0, value := none },
  { short := some "-h".data, long := some "--help".data, argcount := 0, value := none },
  { short := some "-n".data, long := some "--name".data, argcount := 1,
    value := some "Alice".data },
  { short := none, long := some "--only-long".data, argcount := 0, value := none }]


/-! ### `_parse_docstring` (sopix.py lines 239-294)

`_parse_docstring` delegates usage-grammar parsing to the external `docopt`
library, which the specification declares an out-of-scope collaborator with
a narrow contract (usage pattern, defaults table, flattened option list,
rejection via `DocoptLanguageError`).  `docopt.parse_section` is a fixed
published regular expression and is modelled concretely; `formal_usage`,
`parse_defaults` and `parse_pattern` are modelled as an oracle. -/

theorem lenDropLe {α : Type} (p : α → Bool) (l : List α) :
    (l.dropWhile p).length ≤ l.length := by
  induction l with
  | nil => simp [List.dropWhile]
  | cons c r ih =>
    simp only [List.dropWhile]
    split
    · exact Nat.le_trans ih (Nat.le_succ _)
    · exact Nat.le_refl _

/-- Case-insensitive substring test (ASCII), for `re.IGNORECASE`. -/
def ciOccurs (pat : Str) : Str → Bool
  | [] => ciIsPre pat []
  | c :: r => ciIsPre pat (c :: r) || ciOccurs pat r

/-- A line continuing a section: `[ \t].*?(?:\n|$)` starts with a space or
tab. -/
def contLine (x : Str) : Bool :=
  match x with
  | c :: _ => c = ' ' || c = '\t'
  | [] => false

/-- `docopt.parse_section(name, source)` over the lines of `source`: each
line containing `name` (case-insensitively) starts a section consisting of
that line and the following space-or-tab-indented lines; matches do not
overlap; each section is stripped.  `acc` holds the current section's
lines, reversed, while one is open. -/
def parseSecGo (name : Str) (acc : Option (List Str)) : List Str → List Str
  | [] =>
    match acc with
    | some sec => [pyStrip (joinNl sec.reverse)]
    | none => []
  | l :: rest =>
    match acc with
    | some sec =>
      if contLine l then parseSecGo name (some (l :: sec)) rest
      else
        pyStrip (joinNl sec.reverse) ::
          (if ciOccurs name l then parseSecGo name (some [l]) rest
           else parseSecGo name none rest)
    | none =>
      if ciOccurs name l then parseSecGo name (some [l]) rest
      else parseSecGo name none rest

def parseSection (name doc : Str) : List Str :=
  parseSecGo name none (splitNl doc)

/-- `re.sub('^[ \t]+-', 'options:\n\g<0>', doc, count=1, flags=MULTILINE)`,
on the line decomposition: insert an `options:` line before the first line
made of one or more spaces/tabs followed by `-`. -/
def insertOptionsHeader : List Str → List Str
  | [] => []
  | l :: rest =>
    if contLine l && (l.dropWhile (fun c => c = ' ' || c = '\t')).headD ' ' = '-' then
      "options:".data :: l :: rest
    else l :: insertOptionsHeader rest

def addOptionsHeader (doc : Str) : Str :=
  joinSep "\n".data (insertOptionsHeader (splitNl doc))

/-- `re.search(r'usage:\s+(\S+)', usage_msg, re.IGNORECASE)`: the first
position where `usage:` (case-insensitive) is followed by whitespace and a
non-whitespace token; `none` when the search fails (Python then raises
`AttributeError` on `.group(1)`). -/
def findUsageCmd : Str → Option Str
  | [] => none
  | c :: r =>
    if ciIsPre "usage:".data (c :: r) then
      let rest := (c :: r).drop 6
      if rest.takeWhile pyWs = [] then findUsageCmd r
      else
        let tok := (rest.dropWhile pyWs).takeWhile (fun d => !pyWs d)
        if tok = [] then findUsageCmd r else some tok
    else findUsageCmd r

/-- Python `str.replace(old, new)` (all occurrences; `old` nonempty in all
uses: it is a stripped usage section containing `usage:`). -/
def replaceSubGo (old new : Str) : Nat → Str → Str
  | _, [] => []
  | 0, s => s
  | fuel + 1, c :: r =>
    if old ≠ [] && isPre old (c :: r) then
      new ++ replaceSubGo old new fuel ((c :: r).drop old.length)
    else c :: replaceSubGo old new fuel r

def replaceSub (old new : Str) (s : Str) : Str := replaceSubGo old new s.length s

/-- `docopt.DocoptLanguageError` raised by the external grammar parser. -/
structure GrammarErr where
  msg : Str
deriving DecidableEq, Repr

/-- Modelled from the spec: the narrow contract of the external usage-grammar
parser (`docopt`), which is not part of this repository.  `formalUsage` is
`docopt.formal_usage`, `parseDefaults` is `docopt.parse_defaults`, and
`parsePattern` composes `docopt.parse_pattern` with `pattern.flat(Option)`;
each may reject its input with a `GrammarErr`. -/
structure GrammarOracle where
  formalUsage : Str → Except GrammarErr Str
  parseDefaults : Str → Except GrammarErr (List Opt)
  parsePattern : Str → List Opt → Except GrammarErr (List Opt)

/-- Failures of `_parse_docstring` apart from its own ambiguous-usage check:
a propagated grammar rejection, the `AttributeError` of
`re.search(...).group(1)`, or the `TypeError` of `s += ...` on a `None`
spelling in the usage-synthesis loop. -/
inductive PErrRest
  | external (e : GrammarErr)
  | attrError
  | typeError
deriving DecidableEq, Repr

/-- All failures of `_parse_docstring`. -/
inductive PErr
  | grammarLocal (msg : Str)
  | grammarExternal (e : GrammarErr)
  | attrError
  | typeError
deriving DecidableEq, Repr

def PErrRest.toPErr : PErrRest → PErr
  | .external e => .grammarExternal e
  | .attrError => .attrError
  | .typeError => .typeError

/-- Which `_parse_docstring` failures are `GrammarError`s
(`docopt.DocoptLanguageError`). -/
def PErr.isGrammar : PErr → Bool
  | .grammarLocal _ => true
  | .grammarExternal _ => true
  | _ => false

/-- The sort key of line 292: `(o.long or '', o.short or '')`, compared
with Python's tuple/string lexicographic order (here: the lexicographic
order on pairs of character lists). -/
def optKeyL (o : Opt) : Lex (Str × Str) := toLex (o.long.getD [], o.short.getD [])

/-- Lines 290-292: `options = set(options); options.update(defaults);
sorted(...)`.  Deduplication is by `docopt.Pattern` equality (hash/eq of
`repr`, i.e. structural equality of the four fields); the model keeps
first occurrences.  The sort is stable; where two *distinct* options share
a key, CPython's order depends on set iteration order and this model fixes
the first-occurrence order. -/
def processOptions (patternOpts defaults : List Opt) : List Opt :=
  List.insertionSort (fun a b => optKeyL a ≤ optKeyL b) (patternOpts ++ defaults).dedup

/-- Insertion sort on characters (`sorted(...)` over short-flag letters). -/
def insChar (x : Char) : List Char → List Char
  | [] => [x]
  | y :: r => if y ≤ x then y :: insChar x r else x :: y :: r

def sortChars (l : List Char) : List Char := l.foldl (fun acc x => insChar x acc) []

/-- The usage-synthesis loop of lines 277-283, over `defaults` in order. -/
def synthUsageItems (short_flags : List Opt) : List Opt → Except PErrRest (List Str)
  | [] => .ok []
  | o :: rest => do
    let tail ← synthUsageItems short_flags rest
    if short_flags.contains o then
      .ok tail
    else
      match pyOr o.short o.long with
      | none => .error .typeError
      | some s =>
        let s := if o.argcount ≠ 0 then
            s ++ (if isPre "--".data s then "=ARG".data else " ARG".data)
          else s
        .ok (s :: tail)

/-- `_parse_docstring` after the ambiguous-usage check. -/
def parseDocstringRest (G : GrammarOracle) (docstring : Str) :
    Except PErrRest ParseModel := do
  let usage_sections := parseSection "usage:".data docstring
  -- Add "options:" header if it's not present
  let docopt_doc :=
    if parseSection "options:".data docstring = [] then addOptionsHeader docstring
    else docstring
  let placeholder := "Usage:  $CMD [options] [ARGS...]".data
  match usage_sections with
  | [] =>
    -- Add placeholder usage section
    let docopt_doc := placeholder ++ "\n\n".data ++ docopt_doc
    let formal ← (G.formalUsage placeholder).mapError .external
    let defaults ← (G.parseDefaults docopt_doc).mapError .external
    let opts ← (G.parsePattern formal defaults).mapError .external
    -- Create usage section from options
    let short_flags := (defaults.filter (fun o => truthy o.short && o.argcount = 0)).dedup
    let flagItem : List Str :=
      if short_flags ≠ [] then
        ['-' :: sortChars (short_flags.map (fun f => (f.short.getD []).getLastD ' '))]
      else []
    let items ← synthUsageItems short_flags defaults
    let usage_msg :=
      "Usage:  $CMD [".data ++ joinSep "] [".data (flagItem ++ items) ++ "] [ARGS...]".data
    let help_msg := "$USAGE\n\n".data ++ pyStrip docstring
    pure { parsed_cmd := none, usage_msg := usage_msg, help_msg := help_msg,
           options := processOptions opts defaults }
  | sec :: _ =>
    -- Extract command name from the usage section
    let parsed_cmd0 ←
      match findUsageCmd sec with
      | none => throw .attrError
      | some tok => pure tok
    let parsed_cmd := if parsed_cmd0 = "$CMD".data then none else some parsed_cmd0
    let formal ← (G.formalUsage sec).mapError .external
    let defaults ← (G.parseDefaults docopt_doc).mapError .external
    let opts ← (G.parsePattern formal defaults).mapError .external
    let help_msg := pyStrip (replaceSub sec "$USAGE".data docstring)
    pure { parsed_cmd := parsed_cmd, usage_msg := sec, help_msg := help_msg,
           options := processOptions opts defaults }

/-- `_parse_docstring` (lines 239-294). -/
def parseDocstring (G : GrammarOracle) (docstring : Str) : Except PErr ParseModel :=
  if 2 ≤ (parseSection "usage:".data docstring).length then
    .error (.grammarLocal "More than one \"usage:\" (case-insensitive).".data)
  else (parseDocstringRest G docstring).mapError PErrRest.toPErr

/-- Failures of `generate_parser` as a whole. -/
inductive TopErr
  | parse (e : PErr)
  | gen (e : GenErr)
deriving DecidableEq, Repr

def TopErr.isGrammar : TopErr → Bool
  | .parse e => e.isGrammar
  | .gen _ => false

/-- `generate_parser(docstring, **cfg)` (lines 130-236): parse, then
assemble. -/
def generateParser (G : GrammarOracle) (docstring : Str) (cfg : Config) :
    Except TopErr Str :=
  match parseDocstring G docstring with
  | .error e => .error (.parse e)
  | .ok pm => (generateFromModel pm cfg).mapError .gen

/-- The option coupling of the `__main__` wrapper (lines 357-358):
`arg['strip_comments'] |= arg['minimal']` and
`arg['keep_command_ext'] |= (arg['command'] is not None)`. -/
def wrapperCouple (cfg : Config) : Config :=
  { cfg with
    strip_comments := cfg.strip_comments || cfg.minimal,
    keep_command_ext := cfg.keep_command_ext || cfg.command.isSome }

/-- Generation as invoked by the command-line wrapper. -/
def wrapperGenerate (pm : ParseModel) (cfg : Config) : Except GenErr Str :=
  generateFromModel pm (wrapperCouple cfg)

/-- A trivial instantiation of the grammar-oracle contract, used to
evaluate the parametric definitions at concrete inputs. -/
def trivialOracle : GrammarOracle :=
  { formalUsage := fun _ => .ok [],
    parseDefaults := fun _ => .ok [],
    parsePattern := fun _ _ => .ok [] }


/-! ### Lemmas for the full/minimal runtime comparison (claim C1) -/

/-! ### C1 amended: supporting lemmas -/

theorem occurs_append_right {p b : Str} (a : Str) (h : occurs p b = true) :
    occurs p (a ++ b) = true := by
  induction a with
  | nil => simpa using h
  | cons c r ih =>
    simp only [List.cons_append, occurs, Bool.or_eq_true]
    exact Or.inr ih

theorem occurs_suffix_false {p t b : Str} (hs : b.IsSuffix t)
    (h : occurs p t = false) : occurs p b = false := by
  obtain ⟨a, rfl⟩ := hs
  by_contra hb
  have : occurs p b = true := by
    cases hh : occurs p b
    · exact absurd hh hb
    · rfl
  rw [occurs_append_right a this] at h
  simp at h

theorem occurs_eqdd_no_eq {l : Str} (h : ∀ c ∈ l, c ≠ '=') :
    occurs "=--".data l = false := by
  induction l with
  | nil => decide
  | cons c r ih =>
    simp only [occurs]
    have hc : c ≠ '=' := h c (List.mem_cons_self c r)
    have h1 : isPre "=--".data (c :: r) = false := by
      show isPre ['=', '-', '-'] (c :: r) = false
      simp only [isPre, Bool.and_eq_false_iff]
      left
      simpa using fun he => hc he.symm
    rw [h1, ih (fun x hx => h x (List.mem_cons_of_mem c hx))]
    rfl

theorem dropWhile_head_not {p : Char → Bool} {l r : Str} {c : Char}
    (h : l.dropWhile p = c :: r) : p c = false := by
  induction l with
  | nil => simp [List.dropWhile] at h
  | cons a t ih =>
    simp only [List.dropWhile] at h
    split at h
    · exact ih h
    · cases h
      next hp => simpa using hp

theorem afterEq_ne_dd {t : Str} (h : occurs "=--".data t = false) :
    afterEq t ≠ dd := by
  intro hcontra
  unfold afterEq at hcontra
  cases hd : t.dropWhile (fun c => !(c == '=')) with
  | nil => rw [hd] at hcontra; simp [dd] at hcontra
  | cons c r =>
    have hc : (!(c == '=')) = false := dropWhile_head_not hd
    have hceq : c = '=' := by simpa using hc
    rw [hd] at hcontra
    simp only [List.drop_succ_cons, List.drop_zero] at hcontra
    subst hceq hcontra
    have hsuf : (('=' :: dd)).IsSuffix t := by
      have : t.takeWhile (fun c => !(c == '=')) ++ '=' :: dd = t := by
        conv_rhs => rw [← List.takeWhile_append_dropWhile (fun c => !(c == '=')) t]
        rw [hd]
      exact ⟨_, this⟩
    have : occurs "=--".data ('=' :: dd) = false := occurs_suffix_false hsuf h
    simp [dd] at this
    exact absurd this (by decide)

theorem beforeEq_no_eqdd (t : Str) : occurs "=--".data (beforeEq t) = false := by
  apply occurs_eqdd_no_eq
  intro c hc
  have := List.mem_takeWhile_imp hc
  simpa using this

theorem afterEq_no_eqdd {t : Str} (h : occurs "=--".data t = false) :
    occurs "=--".data (afterEq t) = false := by
  apply occurs_suffix_false _ h
  unfold afterEq
  have h1 : (t.dropWhile (fun c => !(c == '='))).IsSuffix t := List.dropWhile_suffix _
  exact (List.drop_suffix 1 _).trans h1



theorem caseStep_transfer (arms : List Opt) (s t : LoopState) (tok : Str) (q : List Str)
    (hb : s.binds = t.binds) (hv : s.valV ≠ dd)
    (hInv : ∀ x ∈ tok :: q, occurs "=--".data x = false) (s' : LoopState)
    (h : caseStepFull arms s tok q = .next s') :
    ∃ t', caseStepMin arms t tok q = .next t' ∧
      s'.queue = t'.queue ∧ s'.binds = t'.binds ∧ s'.valV ≠ dd ∧
      (∀ x ∈ s'.queue, occurs "=--".data x = false) := by
  have hq : ∀ x ∈ q, occurs "=--".data x = false :=
    fun x hx => hInv x (List.mem_cons_of_mem _ hx)
  have htok : occurs "=--".data tok = false := hInv tok (List.mem_cons_self _ _)
  unfold caseStepFull at h
  unfold caseStepMin
  split at h
  next o hfa =>
    split at h
    next hac =>
      split at h
      · simp at h
      next hfail =>
        cases h
        simp only [if_pos hac]
        rw [if_neg]
        · refine ⟨_, rfl, rfl, by simp [hb], hv, ?_⟩
          intro x hx
          exact hq x (List.mem_of_mem_drop hx)
        · intro hc
          apply hfail
          simp only [Bool.or_eq_true, beq_iff_eq] at hc ⊢
          rcases hc with hc | hc
          · exact Or.inl (Or.inl hc)
          · left; right
            simp only [Bool.and_eq_true, beq_iff_eq, Bool.not_eq_true]
            refine ⟨hc, ?_⟩
            simpa using hv
    next hac =>
      split at h
      · simp at h
      next =>
        cases h
        simp only [if_neg hac]
        exact ⟨_, rfl, rfl, by simp [hb], hv, hq⟩
  next hfa =>
    split at h
    next hhelp => split at h <;> simp at h
    next hhelp =>
      split at h
      next hdd =>
        split at h
        next hctn =>
          cases h
          rw [if_neg hhelp, if_pos hdd, if_pos hctn]
          refine ⟨_, rfl, rfl, hb, hv, ?_⟩
          intro x hx
          rcases List.mem_cons.mp hx with rfl | hx
          · decide
          rcases List.mem_append.mp hx with hx | hx
          · exact hq x ((List.dropWhile_sublist _).subset (List.drop_subset 1 _ hx))
          · exact hq x ((List.takeWhile_sublist _).subset hx)
        · simp at h
      next hdd =>
        split at h
        next heqs =>
          cases h
          rw [if_neg hhelp, if_neg hdd, if_pos heqs]
          refine ⟨_, rfl, rfl, hb, ?_, ?_⟩
          · exact afterEq_ne_dd htok
          · intro x hx
            rcases List.mem_cons.mp hx with rfl | hx
            · exact beforeEq_no_eqdd tok
            rcases List.mem_cons.mp hx with rfl | hx
            · exact afterEq_no_eqdd htok
            · exact hq x hx
        next heqs =>
          split at h
          next => simp at h
          next hbl1 =>
            split at h
            next => simp at h
            next hbl2 =>
              split at h
              next => simp at h
              next hbs1 =>
                split at h
                next => simp at h
                next hbs2 =>
                  split at h
                  next hsplit =>
                    cases h
                    rw [if_neg hhelp, if_neg hdd, if_neg heqs,
                        if_neg (by simp only [Bool.or_eq_true, not_or]; exact ⟨hbs2, hbs1⟩),
                        if_pos hsplit]
                    refine ⟨_, rfl, rfl, hb, hv, ?_⟩
                    have htokshape : tok.headD ' ' = '-' ∧ 2 ≤ tok.length := by
                      simpa using hsplit
                    have hne : ∀ c ∈ tok, c ≠ '=' := by
                      intro c hc
                      cases htk : tok with
                      | nil => rw [htk] at hc; simp at hc
                      | cons a rest =>
                        have ha : a = '-' := by
                          rw [htk] at htokshape
                          simpa using htokshape.1
                        rw [htk] at hc
                        rcases List.mem_cons.mp hc with rfl | hc2
                        · rw [ha]; decide
                        · have halc : isAlnum c = true := by
                            by_contra hcon
                            apply hbs1
                            unfold badShortInvalid
                            rw [htk, ha]
                            show (rest.any fun d => !isAlnum d) = true
                            rw [List.any_eq_true]
                            exact ⟨c, hc2, by simpa using hcon⟩
                          intro hceq
                          rw [hceq] at halc
                          exact absurd halc (by decide)
                    intro x hx
                    rcases List.mem_cons.mp hx with rfl | hx
                    · exact occurs_eqdd_no_eq (fun c hc => hne c (List.take_subset 2 tok hc))
                    rcases List.mem_cons.mp hx with rfl | hx
                    · apply occurs_eqdd_no_eq
                      intro c hc
                      rcases List.mem_cons.mp hc with rfl | hc2
                      · decide
                      · exact hne c (List.drop_subset 2 tok hc2)
                    · exact hq x hx
                  next hsplit =>
                    cases h
                    rw [if_neg hhelp, if_neg hdd, if_neg heqs,
                        if_neg (by simp only [Bool.or_eq_true, not_or]; exact ⟨hbs2, hbs1⟩),
                        if_neg hsplit]
                    refine ⟨_, rfl, rfl, hb, hv, ?_⟩
                    intro x hx
                    rcases List.mem_append.mp hx with hx | hx
                    · exact hq x hx
                    · rw [List.mem_singleton.mp hx]; exact htok



theorem caseStep_false (arms : List Opt) (st : LoopState) (t : Str) (q : List Str) :
    caseStep false arms st t q = caseStepFull arms st t q := by
  simp [caseStep]

theorem caseStep_true (arms : List Opt) (st : LoopState) (t : Str) (q : List Str) :
    caseStep true arms st t q = caseStepMin arms st t q := by
  simp [caseStep]

theorem runLoop_transfer (arms : List Opt) :
    ∀ (fuel : Nat) (s t : LoopState), s.queue = t.queue → s.binds = t.binds →
      s.valV ≠ dd → (∀ x ∈ s.queue, occurs "=--".data x = false) →
      ∀ b pos, runLoop false arms fuel s = some (.ok b pos) →
      runLoop true arms fuel t = some (.ok b pos) := by
  intro fuel
  induction fuel with
  | zero => intro s t _ _ _ _ b pos h; simp [runLoop] at h
  | succ n ih =>
    intro s t hq hb hv hInv b pos h
    rw [runLoop] at h ⊢
    rw [← hq]
    cases hqq : s.queue with
    | nil => rw [hqq] at h; exact absurd h (by simp)
    | cons tok rest =>
      rw [hqq] at h
      simp only [] at h ⊢
      by_cases he : (tok == eolTok) = true
      · rw [if_pos he] at h ⊢
        rw [← hb]
        exact h
      · rw [if_neg he] at h ⊢
        rw [caseStep_false] at h
        rw [caseStep_true]
        cases hcs : caseStepFull arms s tok rest with
        | next s' =>
          rw [hcs] at h
          have hInv' : ∀ x ∈ tok :: rest, occurs "=--".data x = false := by
            rw [← hqq]; exact hInv
          obtain ⟨t', ht', hq', hb', hv', hInv''⟩ :=
            caseStep_transfer arms s t tok rest hb hv hInv' s' hcs
          rw [ht']
          exact ih s' t' hq' hb' hv' hInv'' b pos h
        | usageExit d => rw [hcs] at h; simp at h
        | helpExit => rw [hcs] at h; simp at h
        | diverge => rw [hcs] at h; simp at h



theorem runShellParser_transfer (options : List Opt) (argv : List Str) (fuel : Nat)
    (hInv : ∀ x ∈ argv, occurs "=--".data x = false)
    (b : List (Str × Str)) (pos : List Str)
    (h : runShellParser false options argv fuel = some (.ok b pos)) :
    ∃ b0, runShellParser true options argv fuel = some (.ok b0 pos) ∧
      b = applyDefaults (nameDefaults options) b0 := by
  unfold runShellParser at h ⊢
  simp only [] at h ⊢
  cases hr : runLoop false (armOpts options) fuel
      { queue := argv ++ [eolTok], binds := [], longV := [], valV := [], shortV := [] } with
  | none => rw [hr] at h; exact absurd h (by simp)
  | some r =>
    rw [hr] at h
    cases r with
    | usage d => exact absurd h (by simp)
    | help => exact absurd h (by simp)
    | ok b0 pos0 =>
      simp only [if_neg (by simp : ¬ false = true), Option.some.injEq, RunRes.ok.injEq] at h
      have hInv2 : ∀ x ∈ argv ++ [eolTok], occurs "=--".data x = false := by
        intro x hx
        rcases List.mem_append.mp hx with hx | hx
        · exact hInv x hx
        · rw [List.mem_singleton.mp hx]; decide
      have hvne : ([] : Str) ≠ dd := by decide
      have htr := runLoop_transfer (armOpts options) fuel
        { queue := argv ++ [eolTok], binds := [], longV := [], valV := [], shortV := [] }
        { queue := argv ++ [eolTok], binds := [], longV := [], valV := [], shortV := [] }
        rfl rfl hvne hInv2 b0 pos0 hr
      rw [htr]
      refine ⟨b0, ?_, ?_⟩
      · simp [h.2]
      · exact h.1.symm

/-! ## Claim C5 -/

/-- C5: for the example spec (short flags `-f` and `-v`, argument-taking
`-n`/`--name`), the generated parser (default full rendering) run on
`['--name']`, `['--name','--','Arthur']`, `['-n']`, `['-n','--']` and
`['-fnv']` exits with status 2 (a usage failure), and its diagnostic
contains the word `argument` and the offending option as typed (`--name`
or `-n`, the latter also when extracted from the bundle `-fnv`). -/
theorem c5_missing_argument_detection :
    (runShellParser false docExampleOpts ["--name".data] 32 =
        some (.usage "missing argument for option '--name'".data) ∧
      occurs "argument".data "missing argument for option '--name'".data = true ∧
      occurs "'--name'".data "missing argument for option '--name'".data = true) ∧
    (runShellParser false docExampleOpts ["--name".data, "--".data, "Arthur".data] 32 =
        some (.usage "missing argument for option '--name'".data)) ∧
    (runShellParser false docExampleOpts ["-n".data] 32 =
        some (.usage "missing argument for option '-n'".data) ∧
      occurs "argument".data "missing argument for option '-n'".data = true ∧
      occurs "'-n'".data "missing argument for option '-n'".data = true) ∧
    (runShellParser false docExampleOpts ["-n".data, "--".data] 32 =
        some (.usage "missing argument for option '-n'".data)) ∧
    (runShellParser false docExampleOpts ["-fnv".data] 32 =
        some (.usage "missing argument for option '-n'".data)) := by
  decide

/-! ## Claim C1: counterexample -/

/-- C1 fails on the code: on the bundle `-fnv` the full rendering exits
with status 2 (missing argument for `-n`) while the minimal rendering
terminates normally, binding `name` to the sibling flag `-v` — different
exit codes, classifications and bindings. -/
theorem c1_counterexample_fnv :
    runShellParser false docExampleOpts ["-fnv".data] 32 =
      some (.usage "missing argument for option '-n'".data) ∧
    runShellParser true docExampleOpts ["-fnv".data] 32 =
      some (.ok [("flag".data, "true".data), ("name".data, "-v".data)] []) ∧
    runShellParser false docExampleOpts ["-fnv".data] 32 ≠
      runShellParser true docExampleOpts ["-fnv".data] 32 := by
  decide


/-- C1 (amended): the two rendering styles are *not* observably identical
(see `c1_counterexample_fnv`).  What holds: on argument vectors whose
tokens never contain the substring `=--`, whenever the full rendering
terminates normally, the minimal rendering terminates normally with the
same positional-argument list and the same explicitly assigned option
variables; the full rendering then additionally seeds declared defaults
for the options never supplied.  (On rejected inputs the styles also
differ in failure classification and wording, as the counterexample's
trace shows.) -/
theorem c1_minimal_matches_full_success (options : List Opt) (argv : List Str)
    (fuel : Nat) (b : List (Str × Str)) (pos : List Str)
    (hInv : ∀ x ∈ argv, occurs "=--".data x = false)
    (h : runShellParser false options argv fuel = some (.ok b pos)) :
    ∃ b0, runShellParser true options argv fuel = some (.ok b0 pos) ∧
      b = applyDefaults (nameDefaults options) b0 :=
  runShellParser_transfer options argv fuel hInv b pos h

/-- Witness for `c1_minimal_matches_full_success` at `-fvn Bob`. -/
theorem c1_minimal_matches_full_success_witness :
    ∃ b0, runShellParser true docExampleOpts ["-fvn".data, "Bob".data] 32 =
        some (.ok b0 []) ∧
      [("flag".data, "true".data), ("v".data, "true".data),
       ("name".data, "Bob".data), ("only_long".data, ([] : Str))] =
        applyDefaults (nameDefaults docExampleOpts) b0 :=
  c1_minimal_matches_full_success docExampleOpts ["-fvn".data, "Bob".data] 32
    [("flag".data, "true".data), ("v".data, "true".data),
     ("name".data, "Bob".data), ("only_long".data, ([] : Str))] []
    (by decide) (by decide)



/-! ## Claims C3, C4, C6 -/

instance {ε α : Type} [DecidableEq ε] [DecidableEq α] : DecidableEq (Except ε α) :=
  fun x y =>
    match x, y with
    | .ok a, .ok b =>
      if h : a = b then .isTrue (by rw [h])
      else .isFalse (fun hc => h (by cases hc; rfl))
    | .error a, .error b =>
      if h : a = b then .isTrue (by rw [h])
      else .isFalse (fun hc => h (by cases hc; rfl))
    | .ok _, .error _ => .isFalse (fun hc => by cases hc)
    | .error _, .ok _ => .isFalse (fun hc => by cases hc)

def c3Model : ParseModel :=
  { parsed_cmd := none,
    usage_msg := "Usage:  $CMD [-f]".data,
    help_msg := "$USAGE".data,
    options := [{ short := some "-f".data, long := some "--flag".data,
                  argcount := 0, value := none }] }

/-- C3 fails on the code: at `generate_parser` itself (here: its
post-parse body) flipping `strip_comments` under `minimal=True`, or
`keep_command_ext` under a supplied `command`, changes the output text —
the claimed interactions are enforced only by the `__main__` wrapper. -/
theorem c3_counterexample_interactions :
    generateFromModel c3Model
        { defaultConfig with minimal := true, strip_comments := false } ≠
      generateFromModel c3Model
        { defaultConfig with minimal := true, strip_comments := true } ∧
    generateFromModel c3Model
        { defaultConfig with command := some "prog".data, keep_command_ext := false } ≠
      generateFromModel c3Model
        { defaultConfig with command := some "prog".data, keep_command_ext := true } := by
  decide

/-- C3 (amended): the documented interactions hold at the command-line
wrapper, which ORs `strip_comments` with `minimal` and `keep_command_ext`
with `command is not None` (lines 357-358) before calling the generator:
through the wrapper the flag values are immaterial in those situations. -/
theorem c3_wrapper_interactions (pm : ParseModel) (cfg : Config) (b : Bool) (c : Str) :
    wrapperGenerate pm { cfg with minimal := true, strip_comments := b } =
      wrapperGenerate pm { cfg with minimal := true, strip_comments := true } ∧
    wrapperGenerate pm { cfg with command := some c, keep_command_ext := b } =
      wrapperGenerate pm { cfg with command := some c, keep_command_ext := true } := by
  constructor <;> simp [wrapperGenerate, wrapperCouple]

/-- An argument-taking `--help` option (`--help ARG` in an options
section). -/
def helpArgOpt : Opt :=
  { short := none, long := some "--help".data, argcount := 1, value := none }

/-- C4 fails on the code: an option whose identifier is `help` but which
takes an argument is *not* excluded — the loop checks `opt_name == 'help'`
only in the no-argument branch (line 188), so `--help ARG` receives a case
arm and a defaults/debug entry. -/
theorem c4_counterexample_help_arg :
    buildCases false (maxLongLen [helpArgOpt]) [helpArgOpt] =
      .ok (["     --help ) assert_arg \"$1\" \"$val\" \"$opt\" \"$short\"; opt_help=\"$1\"; shift;;".data],
           [("help".data, ([] : Str))]) ∧
    optIdent helpArgOpt = "help".data ∧ helpArgOpt.argcount ≠ 0 := by
  decide

/-- C4 (amended): the loop excludes exactly the options that take no
argument and whose identifier is `help`; argument-taking `help` options
are kept.  Equivalently the loop is the same as first filtering those
options out. -/
theorem c4_help_exclusion (minimal : Bool) (ml : Nat) (options : List Opt) :
    buildCases minimal ml options =
      buildCases minimal ml
        (options.filter (fun o => o.argcount ≠ 0 || optIdent o ≠ "help".data)) := by
  induction options with
  | nil => rfl
  | cons o rest ih =>
    rw [List.filter_cons]
    by_cases hk : (decide (o.argcount ≠ 0) || decide (optIdent o ≠ "help".data)) = true
    · rw [if_pos hk]
      show buildCases minimal ml (o :: rest) = _
      unfold buildCases
      rw [ih]
    · rw [if_neg hk]
      simp only [Bool.or_eq_true, not_or, Bool.not_eq_true, decide_eq_false_iff_not,
        Decidable.not_not] at hk
      obtain ⟨hac, hid⟩ := hk
      have hstep : buildCasesStep minimal ml o = .ok none := by
        unfold buildCasesStep
        cases hpo : pyOr o.long o.short with
        | none =>
          exfalso
          rw [optIdent, hpo] at hid
          simp only [Option.getD_none] at hid
          exact absurd hid.symm (by simp [replaceChar, lstripDash, List.dropWhile])
        | some spelling =>
          simp only []
          rw [if_neg (by simpa using hac), if_pos]
          rw [optIdent, hpo] at hid
          exact hid
      conv_lhs => rw [buildCases]
      rw [hstep, ih]
      cases hbb : buildCases minimal ml
          (rest.filter (fun o => o.argcount ≠ 0 || optIdent o ≠ "help".data)) with
      | error e => simp [hbb, Bind.bind, Except.bind]
      | ok p =>
        cases p with
        | mk cs nds => simp [hbb, Bind.bind, Except.bind]

/-- C6: generation is deterministic — byte-identical inputs (docstring,
configuration, and the same external grammar parser) give byte-identical
output; the embedding is a pure function of exactly these inputs. -/
theorem c6_generation_deterministic (G₁ G₂ : GrammarOracle) (d₁ d₂ : Str)
    (c₁ c₂ : Config) (hG : G₁ = G₂) (hd : d₁ = d₂) (hc : c₁ = c₂) :
    generateParser G₁ d₁ c₁ = generateParser G₂ d₂ c₂ := by
  subst hG hd hc
  rfl

/-- Witness for `c6_generation_deterministic` at a concrete input. -/
theorem c6_generation_deterministic_witness :
    generateParser trivialOracle "Usage: prog [-f]\n".data defaultConfig =
      generateParser trivialOracle "Usage: prog [-f]\n".data defaultConfig :=
  c6_generation_deterministic trivialOracle trivialOracle
    "Usage: prog [-f]\n".data "Usage: prog [-f]\n".data
    defaultConfig defaultConfig rfl rfl rfl


/-! ## Claim C8: option-model invariants -/
/-- Two distinct options with the same derived identifier (`--name` as a
flag and `--name ARG`), as the grammar parser can deliver when a spelling
occurs twice in an options table. -/
def dupOptA : Opt :=
  { short := some "-n".data, long := some "--name".data, argcount := 0, value := none }

def dupOptB : Opt :=
  { short := none, long := some "--name".data, argcount := 1, value := none }

/-- C8 fails on the code: nothing enforces distinct identifiers — two
distinct options sharing the long spelling `--name` both survive
deduplication and sorting, and their derived identifiers coincide. -/
theorem c8_counterexample_duplicate_identifiers :
    processOptions [] [dupOptA, dupOptB] = [dupOptB, dupOptA] ∧
    dupOptA ≠ dupOptB ∧ optIdent dupOptA = optIdent dupOptB := by
  decide

instance : IsTotal Opt (fun a b => optKeyL a ≤ optKeyL b) :=
  ⟨fun _ _ => le_total _ _⟩

instance : IsTrans Opt (fun a b => optKeyL a ≤ optKeyL b) :=
  ⟨fun _ _ _ => le_trans⟩

/-- C8 (amended): the option model handed to emission is deduplicated (by
option equality, each surviving option occurring once), sorted ascending by
the key `(long or '', short or '')`, and contains exactly the options of
the flattened usage pattern and the defaults table; pairwise-distinct
identifiers are *not* guaranteed. -/
theorem c8_model_invariant (u d : List Opt) :
    (processOptions u d).Sorted (fun a b => optKeyL a ≤ optKeyL b) ∧
    (processOptions u d).Nodup ∧
    ∀ o, o ∈ processOptions u d ↔ o ∈ u ∨ o ∈ d := by
  unfold processOptions
  refine ⟨?_, ?_, ?_⟩
  · exact List.sorted_insertionSort _ _
  · exact ((List.perm_insertionSort _ _).nodup_iff).mpr (List.nodup_dedup _)
  · intro o
    rw [(List.perm_insertionSort _ _).mem_iff, List.mem_dedup, List.mem_append]


/-! ## Claim C2: substitution totality -/

/-- A docstring whose text carries a template-style placeholder that is in
no substitution map. -/
def c2doc : Str := "Usage: p\n\nA $\x7b__QQQ__\x7d\n".data

def exOk {ε α : Type} : Except ε α → Bool
  | .ok _ => true
  | .error _ => false

def exOut : Except TopErr Str → Str
  | .ok s => s
  | .error _ => []

/-- C2 fails on the code: `safe_substitute` never raises on an unresolved
placeholder, and a placeholder arriving through the docstring (here in the
help message) survives both substitution passes into the returned text. -/
theorem c2_counterexample_unresolved_placeholder :
    exOk (generateParser trivialOracle c2doc defaultConfig) = true ∧
    occurs "$\x7b__QQQ__\x7d".data
      (exOut (generateParser trivialOracle c2doc defaultConfig)) = true := by
  decide

theorem isSome_map {α β : Type} (f : α → β) (o : Option α) :
    (o.map f).isSome = o.isSome := by
  cases o <;> rfl

/-- `pyFormat1Go` succeeds exactly when `fmtOkGo` accepts the format. -/
theorem pyFormat1Go_isSome (arg : Str) (f : Str) : ∀ (pend used : Bool),
    (pyFormat1Go arg pend used f).isSome = fmtOkGo pend used f := by
  induction f with
  | nil => intro pend used; cases pend <;> cases used <;> rfl
  | cons c r ih =>
    intro pend used
    cases pend with
    | false =>
      by_cases hc : c = '%'
      · simp [pyFormat1Go, fmtOkGo, hc, ih]
      · simp [pyFormat1Go, fmtOkGo, hc, ih, isSome_map]
    | true =>
      by_cases hs : c = 's'
      · cases used with
        | false => simp [pyFormat1Go, fmtOkGo, hs, ih, isSome_map]
        | true => simp [pyFormat1Go, fmtOkGo, hs]
      · by_cases hp : c = '%'
        · simp [pyFormat1Go, fmtOkGo, hs, hp, ih, isSome_map]
        · simp [pyFormat1Go, fmtOkGo, hs, hp]

/-- Prepending percent-free text does not change format acceptance. -/
theorem fmtOkGo_append (f : Str) : ∀ (a : Str) (used : Bool), '%' ∉ a →
    fmtOkGo false used (a ++ f) = fmtOkGo false used f := by
  intro a
  induction a with
  | nil => intro used _; rfl
  | cons c r ih =>
    intro used h
    have hc : ¬ c = '%' := fun hh => h (hh ▸ List.mem_cons_self c r)
    simp only [List.cons_append, fmtOkGo, Bool.false_eq_true, if_false, if_neg hc]
    exact ih used (fun hm => h (List.mem_cons_of_mem c hm))

/-- `line % opt_name` cannot fail when the line is percent-free text
followed by a fragment holding exactly one `%s`. -/
theorem pyFormat1_ne_none (a f arg : Str) (ha : '%' ∉ a)
    (hf : fmtOkGo false false f = true) :
    pyFormat1 (a ++ f) arg ≠ none := by
  intro hn
  have h1 : (pyFormat1Go arg false false (a ++ f)).isSome = true := by
    rw [pyFormat1Go_isSome, fmtOkGo_append f a false ha, hf]
  rw [show pyFormat1Go arg false false (a ++ f) = pyFormat1 (a ++ f) arg from rfl,
    hn] at h1
  exact absurd h1 (by simp)

/-- The emitted case-arm prefix (spellings, padding, `" ) "`) is
percent-free when the spellings are. -/
theorem pct_not_mem_base (sh lo mid : Str) (ml : Nat) (t1 t2 : Bool)
    (h2 : '%' ∉ lo) (h3 : '%' ∉ sh) (hmid : '%' ∉ mid) :
    '%' ∉ ((if t1 then sh else "  ".data) ++ mid ++
      padRight ml (if t2 then lo else []) ++ " ) ".data) := by
  intro h
  simp only [List.mem_append] at h
  rcases h with ((h | h) | h) | h
  · split at h
    · exact h3 h
    · exact absurd h (by decide)
  · exact hmid h
  · unfold padRight at h
    rw [List.mem_append] at h
    rcases h with h | h
    · split at h
      · exact h2 h
      · exact absurd h (List.not_mem_nil _)
    · rw [List.mem_replicate] at h
      exact absurd h.2 (by decide)
  · exact absurd h (by decide)

theorem fmtOk_assert_arg (m : Bool) : fmtOkGo false false (SNIPPET_assert_arg m) = true := by
  cases m <;> decide

/-- One loop iteration cannot fail when the option has a spelling and the
spellings are percent-free. -/
theorem buildCasesStep_ok (minimal : Bool) (ml : Nat) (o : Opt)
    (h1 : (pyOr o.long o.short).isSome = true)
    (h2 : '%' ∉ o.long.getD []) (h3 : '%' ∉ o.short.getD []) :
    ∃ r, buildCasesStep minimal ml o = .ok r := by
  cases hp : pyOr o.long o.short with
  | none => rw [hp] at h1; exact absurd h1 (by simp)
  | some spelling =>
    have hbase : '%' ∉ ((if truthy o.short then o.short.getD [] else "  ".data) ++
        (if truthy o.short && truthy o.long then " | ".data
         else if ml ≠ 0 then "   ".data else []) ++
        padRight ml (if truthy o.long then o.long.getD [] else []) ++ " ) ".data) :=
      pct_not_mem_base _ _ _ ml _ _ h2 h3 (by split_ifs <;> decide)
    simp only [buildCasesStep, hp]
    split
    · split
      · exact ⟨_, rfl⟩
      · rename_i heq
        exact absurd heq (pyFormat1_ne_none _ _ _ hbase (fmtOk_assert_arg minimal))
    · split
      · exact ⟨_, rfl⟩
      · have hX : '%' ∉ ((if truthy o.short then o.short.getD [] else "  ".data) ++
            (if truthy o.short && truthy o.long then " | ".data
             else if ml ≠ 0 then "   ".data else []) ++
            padRight ml (if truthy o.long then o.long.getD [] else []) ++ " ) ".data ++
            (if truthy o.long then SNIPPET_assert_noarg minimal else [])) := by
          intro h
          rcases List.mem_append.mp h with h | h
          · exact hbase h
          · split at h
            · cases minimal <;> exact absurd h (by decide)
            · exact absurd h (List.not_mem_nil _)
        split
        · exact ⟨_, rfl⟩
        · rename_i heq
          exact absurd heq (pyFormat1_ne_none _ _ _ hX (by decide))

/-- The option loop as a whole cannot fail under the same conditions. -/
theorem buildCases_ok (minimal : Bool) (ml : Nat) :
    ∀ opts : List Opt,
      (∀ o ∈ opts, (pyOr o.long o.short).isSome = true ∧
        '%' ∉ o.long.getD [] ∧ '%' ∉ o.short.getD []) →
      ∃ p, buildCases minimal ml opts = .ok p
  | [], _ => ⟨_, rfl⟩
  | o :: rest, h => by
    obtain ⟨hs, h2, h3⟩ := h o (List.mem_cons_self o rest)
    obtain ⟨r, hr⟩ := buildCasesStep_ok minimal ml o hs h2 h3
    obtain ⟨p, hp⟩ := buildCases_ok minimal ml rest
      (fun x hx => h x (List.mem_cons_of_mem o hx))
    cases p with
    | mk cs nds =>
      cases r with
      | none =>
        exact ⟨(cs, nds), by simp [buildCases, hr, hp, Bind.bind, Except.bind]⟩
      | some lnd =>
        exact ⟨(lnd.1 :: cs, lnd.2 :: nds),
          by simp [buildCases, hr, hp, Bind.bind, Except.bind]⟩

theorem exOk_iff {ε α : Type} (r : Except ε α) :
    exOk r = true ↔ ∃ a, r = .ok a := by
  cases r <;> simp [exOk]

/-- C2 (amended): the assembly step is total — `safe_substitute` never
raises, so generation succeeds for every parse model whose options all
have a spelling with no `%` in it, under a valid shebang; unresolved
placeholders are passed through, not reported. -/
theorem c2_substitution_total (pm : ParseModel) (cfg : Config)
    (hsheb : cfg.shebang = [] ∨
      ('
' ∉ cfg.shebang ∧ ¬ 2 < (pySplit cfg.shebang).length))
    (hopts : ∀ o ∈ pm.options, (pyOr o.long o.short).isSome = true ∧
      '%' ∉ o.long.getD [] ∧ '%' ∉ o.short.getD []) :
    ∃ out, generateFromModel pm cfg = .ok out := by
  have hshe : ∃ s, shebangCheck cfg.shebang = .ok s := by
    unfold shebangCheck
    split
    · rcases hsheb with h | ⟨hn, hw⟩
      · rename_i hne
        exact absurd h (by simpa using hne)
      · rw [if_neg (by push_neg; exact ⟨hn, by omega⟩)]
        split <;> exact ⟨_, rfl⟩
    · exact ⟨_, rfl⟩
  obtain ⟨s, hs⟩ := hshe
  obtain ⟨p, hp⟩ := buildCases_ok cfg.minimal (maxLongLen pm.options) pm.options hopts
  rw [← exOk_iff]
  simp [generateFromModel, hs, hp, Bind.bind, Except.bind, Except.mapError, exOk]

def c2pm : ParseModel :=
  { parsed_cmd := none,
    usage_msg := "Usage:  $CMD [-f]".data,
    help_msg := "$USAGE".data,
    options := [{ short := some "-f".data, long := some "--flag".data,
                  argcount := 0, value := none }] }

theorem c2_substitution_total_witness :
    ∃ out, generateFromModel c2pm defaultConfig = .ok out :=
  c2_substitution_total c2pm defaultConfig (Or.inr (by decide)) (by decide)

/-! ## Claim C7: grammar-failure characterisation -/

/-- C7 (spec-modelled: the usage-grammar parser is the external `docopt`
collaborator, given as an oracle): `generate_parser` fails with a
`GrammarError` exactly when the docstring holds two or more `usage:`
sections (case-insensitive) or the external grammar parser rejects the
text, and a failure never comes with partial output. -/
theorem c7_grammar_failure_characterisation (G : GrammarOracle) (doc : Str)
    (cfg : Config) :
    ((∃ e, generateParser G doc cfg = .error e ∧ e.isGrammar = true) ↔
      (2 ≤ (parseSection "usage:".data doc).length ∨
        ∃ g, parseDocstringRest G doc = .error (.external g))) ∧
    (∀ e, generateParser G doc cfg = .error e →
      ∀ t, generateParser G doc cfg ≠ .ok t) := by
  constructor
  · constructor
    · rintro ⟨e, he, hg⟩
      by_cases hcnt : 2 ≤ (parseSection "usage:".data doc).length
      · exact Or.inl hcnt
      · right
        unfold generateParser parseDocstring at he
        rw [if_neg hcnt] at he
        cases hr : parseDocstringRest G doc with
        | ok pm =>
          rw [hr] at he
          simp only [Except.mapError] at he
          cases hgm : generateFromModel pm cfg with
          | ok s => rw [hgm] at he; simp [Except.mapError] at he
          | error ge =>
            rw [hgm] at he
            simp only [Except.mapError, Except.error.injEq] at he
            rw [← he] at hg
            simp [TopErr.isGrammar] at hg
        | error x =>
          rw [hr] at he
          simp only [Except.mapError, Except.error.injEq] at he
          cases x with
          | external g => exact ⟨g, rfl⟩
          | attrError =>
            rw [← he] at hg
            simp [TopErr.isGrammar, PErrRest.toPErr, PErr.isGrammar] at hg
          | typeError =>
            rw [← he] at hg
            simp [TopErr.isGrammar, PErrRest.toPErr, PErr.isGrammar] at hg
    · intro h
      by_cases hcnt : 2 ≤ (parseSection "usage:".data doc).length
      · refine ⟨.parse (.grammarLocal "More than one \"usage:\" (case-insensitive).".data),
          ?_, rfl⟩
        unfold generateParser parseDocstring
        rw [if_pos hcnt]
      · rcases h with h | ⟨g, hg⟩
        · exact absurd h hcnt
        · refine ⟨.parse (.grammarExternal g), ?_, rfl⟩
          unfold generateParser parseDocstring
          rw [if_neg hcnt, hg]
          rfl
  · intro e he t ht
    rw [he] at ht
    exact Except.noConfusion ht

/-! ## Claims C9 and C10: shebang handling and output shape -/

/-! ### Shape of the assembled text: substitution stepping lemmas -/

theorem substGo_ph (m : List (Str × Str)) (rest : Str) :
    substGo m .normal (TMPL_SHEBANG_PH ++ rest) =
      (match lookupS m "__SHEBANG__".data with
       | some v => v ++ substGo m .normal rest
       | none => '$' :: '{' :: ("__SHEBANG__".data ++ '}' :: substGo m .normal rest)) := rfl

theorem substGo_nlcmd (m : List (Str × Str)) (rest : Str) :
    substGo m .normal ("\n\nCMD=".data ++ rest) =
      "\n\nCMD=".data ++ substGo m .normal rest := rfl

theorem expandTabs_append (n : Nat) (a b : Str) :
    expandTabs n (a ++ b) = expandTabs n a ++ expandTabs n b := by
  simp [expandTabs]

theorem expandTabs_ph (n : Nat) : expandTabs n TMPL_SHEBANG_PH = TMPL_SHEBANG_PH := rfl

theorem expandTabs_nlcmd (n : Nat) :
    expandTabs n "\n\nCMD=".data = "\n\nCMD=".data := rfl

/-- Pass 1 of the assembly leaves the shebang placeholder and the `CMD=`
anchor in place. -/
theorem pass1_shape (mE : List (Str × Str))
    (hE : lookupS mE "__SHEBANG__".data = none) :
    ∃ t, safeSubst mE PARSER_TEMPLATE =
      TMPL_SHEBANG_PH ++ ("\n\nCMD=".data ++ t) := by
  refine ⟨substGo mE .normal TMPL_REST, ?_⟩
  show substGo mE .normal (TMPL_SHEBANG_PH ++ ("\n\nCMD=".data ++ TMPL_REST)) = _
  rw [substGo_ph, hE, substGo_nlcmd]
  rfl

theorem pass2_shape (n : Nat) (s t : Str)
    (h : s = TMPL_SHEBANG_PH ++ ("\n\nCMD=".data ++ t)) :
    ∃ u, expandTabs n s = TMPL_SHEBANG_PH ++ ("\n\nCMD=".data ++ u) := by
  subst h
  refine ⟨expandTabs n t, ?_⟩
  rw [expandTabs_append, expandTabs_append, expandTabs_ph, expandTabs_nlcmd]

/-- Pass 2 (late map) resolves the placeholder to the shebang text and
keeps the `CMD=` anchor. -/
theorem pass3_shape (mL : List (Str × Str)) (sheb s t : Str)
    (hL : lookupS mL "__SHEBANG__".data = some sheb)
    (h : s = TMPL_SHEBANG_PH ++ ("\n\nCMD=".data ++ t)) :
    ∃ u, safeSubst mL s = sheb ++ ("\n\nCMD=".data ++ u) := by
  subst h
  refine ⟨substGo mL .normal t, ?_⟩
  show substGo mL .normal (TMPL_SHEBANG_PH ++ ("\n\nCMD=".data ++ t)) = _
  rw [substGo_ph, hL, substGo_nlcmd]




/-! ### `strip` toolbox -/

theorem mem_dropWhile_of_not {p : Char → Bool} {c : Char} :
    ∀ {l : Str}, c ∈ l → p c = false → c ∈ l.dropWhile p := by
  intro l
  induction l with
  | nil => intro h _; exact absurd h (List.not_mem_nil c)
  | cons d r ih =>
    intro h hc
    rw [List.dropWhile]
    split
    · rename_i hd
      rcases List.mem_cons.mp h with rfl | h
      · rw [hc] at hd; exact absurd hd (by simp)
      · exact ih h hc
    · exact h

theorem mem_stripLeft {c : Char} {l : Str} (h : c ∈ l) (hc : pyWs c = false) :
    c ∈ stripLeft l := mem_dropWhile_of_not h hc

theorem mem_stripRight {c : Char} {l : Str} (h : c ∈ l) (hc : pyWs c = false) :
    c ∈ stripRight l := by
  unfold stripRight
  rw [List.mem_reverse]
  exact mem_dropWhile_of_not (List.mem_reverse.mpr h) hc

theorem pyStrip_ne_nil {c : Char} {l : Str} (h : c ∈ l) (hc : pyWs c = false) :
    pyStrip l ≠ [] := by
  intro he
  have : c ∈ pyStrip l := mem_stripRight (mem_stripLeft h hc) hc
  rw [he] at this
  exact absurd this (List.not_mem_nil c)

theorem mem_of_mem_dropWhile {p : Char → Bool} {c : Char} :
    ∀ {l : Str}, c ∈ l.dropWhile p → c ∈ l := by
  intro l
  induction l with
  | nil => intro h; exact h
  | cons d r ih =>
    intro h
    rw [List.dropWhile] at h
    split at h
    · exact List.mem_cons_of_mem d (ih h)
    · exact h

theorem mem_of_mem_pyStrip {c : Char} {l : Str} (h : c ∈ pyStrip l) : c ∈ l := by
  unfold pyStrip stripRight stripLeft at h
  rw [List.mem_reverse] at h
  have h2 := mem_of_mem_dropWhile h
  rw [List.mem_reverse] at h2
  exact mem_of_mem_dropWhile h2

/-- `dropWhile` over an append whose left part keeps an element. -/
theorem dropWhile_append_left {p : Char → Bool} {a : Str} (b : Str)
    (h : a.dropWhile p ≠ []) :
    (a ++ b).dropWhile p = a.dropWhile p ++ b := by
  induction a with
  | nil => exact absurd rfl h
  | cons c r ih =>
    cases hc : p c with
    | false =>
      simp only [List.cons_append, List.dropWhile_cons, hc, Bool.false_eq_true,
        if_false]
    | true =>
      simp only [List.cons_append, List.dropWhile_cons, hc, if_true] at h ⊢
      exact ih h

/-- `rstrip` confined to the right part when the left part ends in a kept
element. -/
theorem stripRight_append {a b : Str} {c : Char} (hm : c ∈ b) (hc : pyWs c = false) :
    stripRight (a ++ b) = a ++ stripRight b := by
  unfold stripRight
  rw [List.reverse_append]
  rw [dropWhile_append_left a.reverse (fun he => ?_), List.reverse_append,
    List.reverse_reverse]
  have : c ∈ b.reverse.dropWhile pyWs :=
    mem_dropWhile_of_not (List.mem_reverse.mpr hm) hc
  rw [he] at this
  exact absurd this (List.not_mem_nil c)

theorem stripLeft_cons_not {c : Char} {l : Str} (hc : pyWs c = false) :
    stripLeft (c :: l) = c :: l := by
  unfold stripLeft
  rw [List.dropWhile_cons, if_neg (by simp [hc])]

theorem takeWhile_append_nl {a : Str} (w : Str) (ha : '\n' ∉ a) :
    (a ++ '\n' :: w).takeWhile (fun c => c ≠ '\n') = a := by
  induction a with
  | nil => simp [List.takeWhile_cons]
  | cons c r ih =>
    have hc : c ≠ '\n' := fun h => ha (h ▸ List.mem_cons_self c r)
    rw [List.cons_append, List.takeWhile_cons, if_pos (by simp [hc]),
      ih (fun h => ha (List.mem_cons_of_mem c h))]




/-! ### Line decomposition of the strip passes -/

theorem splitNl_ne_nil (s : Str) : splitNl s ≠ [] := by
  cases s with
  | nil => simp [splitNl]
  | cons c r =>
    rw [splitNl]
    split
    · simp
    · split <;> simp

theorem splitNl_append {a : Str} (ha : '\n' ∉ a) :
    ∀ {y hd tl}, splitNl y = hd :: tl → splitNl (a ++ y) = (a ++ hd) :: tl := by
  induction a with
  | nil => intro y hd tl h; simpa using h
  | cons c r ih =>
    intro y hd tl h
    have hc : ¬ c = '\n' := fun hh => ha (hh ▸ List.mem_cons_self c r)
    rw [List.cons_append, splitNl, if_neg hc,
      ih (fun hm => ha (List.mem_cons_of_mem c hm)) h]
    rfl

theorem splitNl_nl (r : Str) : splitNl ('\n' :: r) = [] :: splitNl r := by
  rw [splitNl, if_pos rfl]

/-- `joinNl` of at least two lines. -/
theorem joinNl_cons2 (a b : Str) (rest : List Str) :
    joinNl (a :: b :: rest) = a ++ '\n' :: joinNl (b :: rest) := by
  show (a ++ "\n".data) ++ joinNl (b :: rest) = _
  rw [List.append_assoc]
  rfl

theorem matchComment1_empty : matchComment1 [] = false := rfl

theorem matchComment2_empty : matchComment2 [] = false := rfl

theorem matchComment1_hash_bang (x : Str) : matchComment1 ('#' :: '!' :: x) = false := rfl

theorem matchComment2_hash_bang (x : Str) : matchComment2 ('#' :: '!' :: x) = false := rfl

theorem matchComment1_cmd (x : Str) : matchComment1 ("CMD=".data ++ x) = false := rfl

theorem matchComment2_cmd (x : Str) : matchComment2 ("CMD=".data ++ x) = false := rfl

/-- A line whose comment regexes both fail is kept by the first pass. -/
theorem lineStripL_keep {l : Str} (h1 : matchComment1 l = false)
    (h2 : matchComment2 l = false) :
    ∀ rest : List Str, lineStripL (l :: rest) = l :: lineStripL rest := by
  intro rest
  cases rest with
  | nil => rfl
  | cons l2 r2 =>
    rw [lineStripL, if_neg (by simp [h1]), if_neg (by simp [h2])]

theorem inlineLine_cmd (x : Str) :
    inlineLine ("CMD=".data ++ x) = "CMD=".data ++ inlineLine x := rfl

theorem inlineLine_empty : inlineLine [] = [] := rfl




theorem lookupS_append_some {a : List (Str × Str)} {k : Str} {v : Str} (b : List (Str × Str))
    (h : lookupS a k = some v) : lookupS (a ++ b) k = some v := by
  induction a with
  | nil => simp [lookupS] at h
  | cons p r ih =>
    rw [List.cons_append, lookupS]
    rw [lookupS] at h
    split at h
    · rename_i hp
      cases p with
      | mk k' v' => rw [if_pos (by exact hp)]; exact h
    · rename_i hp
      cases p with
      | mk k' v' => rw [if_neg hp]; exact ih h

theorem lookupS_append_none {a : List (Str × Str)} {k : Str} (b : List (Str × Str))
    (h : lookupS a k = none) : lookupS (a ++ b) k = lookupS b k := by
  induction a with
  | nil => rfl
  | cons p r ih =>
    rw [List.cons_append, lookupS]
    rw [lookupS] at h
    split at h
    · simp at h
    · rename_i hp
      cases p with
      | mk k' v' => rw [if_neg hp]; exact ih h

theorem lookupS_earlyMap_shebang {a b c d e f : Str} :
    lookupS (earlyMap a b c d e f) "__SHEBANG__".data = none := rfl

theorem lookupS_lateMap_shebang {early : List (Str × Str)} {sheb : Str}
    (hE : lookupS early "__SHEBANG__".data = none)
    (x1 x2 x3 : Str) (hme : List (Str × Str))
    (y1 y2 y3 y4 y5 y6 y7 y8 y9 : Str) :
    lookupS (lateMap early sheb x1 x2 x3 hme y1 y2 y3 y4 y5 y6 y7 y8 y9)
      "__SHEBANG__".data = some sheb := by
  unfold lateMap
  refine lookupS_append_some _ (lookupS_append_some _ ?_)
  rw [lookupS_append_none _ hE]
  rfl

/-- The assembled pre-strip text: the shebang text, a blank line, and the
`CMD=` line onwards. -/
theorem assembled_shape (mE mL : List (Str × Str)) (sheb : Str) (c : Prop)
    [Decidable c] (n : Nat)
    (hE : lookupS mE "__SHEBANG__".data = none)
    (hL : lookupS mL "__SHEBANG__".data = some sheb) :
    ∃ t, safeSubst mL (if c then expandTabs n (safeSubst mE PARSER_TEMPLATE)
        else safeSubst mE PARSER_TEMPLATE) =
      sheb ++ ("\n\nCMD=".data ++ t) := by
  obtain ⟨t1, h1⟩ := pass1_shape mE hE
  by_cases hc : c
  · rw [if_pos hc]
    obtain ⟨t2, h2⟩ := pass2_shape n _ t1 h1
    exact pass3_shape mL sheb _ t2 hL h2
  · rw [if_neg hc]
    exact pass3_shape mL sheb _ t1 hL h1




theorem isPre_hash_bang {s : Str} (h : isPre "#!".data s = true) :
    ∃ x, s = '#' :: '!' :: x := by
  cases s with
  | nil => simp [isPre] at h
  | cons c r =>
    cases r with
    | nil =>
      rw [show isPre "#!".data (c :: []) =
        (decide ('#' = c) && isPre "!".data []) from rfl] at h
      simp [isPre] at h
    | cons d r' =>
      rw [show isPre "#!".data (c :: d :: r') =
        (decide ('#' = c) && (decide ('!' = d) && isPre [] r')) from rfl] at h
      simp only [Bool.and_eq_true, decide_eq_true_eq] at h
      exact ⟨r', by rw [← h.1, ← h.2.1]⟩

/-- What `shebangCheck` can return: a newline-free string that is empty or
starts with `#!`. -/
theorem shebangCheck_ok_shape {w sheb : Str} (h : shebangCheck w = .ok sheb) :
    '\n' ∉ sheb ∧ (sheb = [] ∨ ∃ x, sheb = '#' :: '!' :: x) := by
  unfold shebangCheck at h
  split at h
  · rename_i hw
    split at h
    · exact absurd h (by simp)
    · rename_i hval
      split at h
      · simp only [Except.ok.injEq] at h
        subst h
        refine ⟨?_, Or.inr ⟨pyStrip w, rfl⟩⟩
        intro hm
        rcases List.mem_append.mp hm with hm | hm
        · exact absurd hm (by decide)
        · exact hval (Or.inl (mem_of_mem_pyStrip hm))
      · rename_i hpre
        simp only [Except.ok.injEq] at h
        subst h
        have hp : isPre "#!".data w = true := by
          simpa using hpre
        refine ⟨fun hm => hval (Or.inl hm), Or.inr (isPre_hash_bang hp)⟩
  · rename_i hw
    simp only [Except.ok.injEq] at h
    subst h
    have : w = [] := by simpa using hw
    subst this
    exact ⟨by simp, Or.inl rfl⟩

/-- Every successful assembly's output is the final `strip()` of a text of
the form `sheb ++ "\n\n" ++ "CMD=" ++ …`, with a trailing newline added. -/
theorem generateFromModel_shape (pm : ParseModel) (cfg : Config) (out : Str)
    (h : generateFromModel pm cfg = .ok out) :
    ∃ sheb t, shebangCheck cfg.shebang = .ok sheb ∧
      out = pyStrip (if cfg.strip_comments
          then inlineStrip (lineStrip (sheb ++ ("\n\nCMD=".data ++ t)))
          else sheb ++ ("\n\nCMD=".data ++ t)) ++ "\n".data := by
  cases hs : shebangCheck cfg.shebang with
  | error e => simp [generateFromModel, hs, Bind.bind, Except.bind] at h
  | ok sheb =>
    cases hb : buildCases cfg.minimal (maxLongLen pm.options) pm.options with
    | error e =>
      simp [generateFromModel, hs, hb, Bind.bind, Except.bind, Except.mapError] at h
    | ok cnd =>
      simp only [generateFromModel, hs, hb, Bind.bind, Except.bind, Except.mapError,
        Except.ok.injEq] at h
      obtain ⟨t3, hp3⟩ := assembled_shape _ _ sheb (0 < cfg.expand_tabs)
        cfg.expand_tabs.toNat
        lookupS_earlyMap_shebang
        (lookupS_lateMap_shebang lookupS_earlyMap_shebang _ _ _ _ _ _ _ _ _ _ _ _ _)
      rw [hp3] at h
      exact ⟨sheb, t3, rfl, h.symm⟩




theorem joinNl_head_append (x h : Str) (L : List Str) :
    ∃ u, joinNl ((x ++ h) :: L) = x ++ u := by
  cases L with
  | nil => exact ⟨h, rfl⟩
  | cons b r => exact ⟨h ++ '\n' :: joinNl (b :: r), by rw [joinNl_cons2, List.append_assoc]⟩

/-- The line-comment pass keeps the shebang line, the blank line and the
`CMD=` line. -/
theorem lineStrip_shape (sheb t : Str) (hnl : '\n' ∉ sheb)
    (hk1 : matchComment1 sheb = false) (hk2 : matchComment2 sheb = false) :
    ∃ u, lineStrip (sheb ++ ("\n\nCMD=".data ++ t)) =
      sheb ++ ("\n\nCMD=".data ++ u) := by
  obtain ⟨hd, tl, hsp⟩ := List.exists_cons_of_ne_nil (splitNl_ne_nil t)
  have hy : splitNl ("CMD=".data ++ t) = ("CMD=".data ++ hd) :: tl :=
    splitNl_append (by decide) hsp
  have h2 : splitNl ('\n' :: '\n' :: ("CMD=".data ++ t)) =
      [] :: [] :: (("CMD=".data ++ hd) :: tl) := by
    rw [splitNl_nl, splitNl_nl, hy]
  have hsplit : splitNl (sheb ++ ("\n\nCMD=".data ++ t)) =
      (sheb ++ []) :: [] :: ("CMD=".data ++ hd) :: tl := splitNl_append hnl h2
  rw [List.append_nil] at hsplit
  rw [lineStrip, hsplit, lineStripL_keep hk1 hk2,
    lineStripL_keep matchComment1_empty matchComment2_empty,
    lineStripL_keep (matchComment1_cmd hd) (matchComment2_cmd hd),
    joinNl_cons2, joinNl_cons2]
  obtain ⟨u2, hu2⟩ := joinNl_head_append "CMD=".data hd (lineStripL tl)
  rw [hu2]
  exact ⟨u2, rfl⟩

/-- The inline-comment pass maps the shebang line through `inlineLine` and
keeps the blank line and the `CMD=` anchor. -/
theorem inlineStrip_shape (sheb t : Str) (hnl : '\n' ∉ sheb) :
    ∃ u, inlineStrip (sheb ++ ("\n\nCMD=".data ++ t)) =
      inlineLine sheb ++ ("\n\nCMD=".data ++ u) := by
  obtain ⟨hd, tl, hsp⟩ := List.exists_cons_of_ne_nil (splitNl_ne_nil t)
  have hy : splitNl ("CMD=".data ++ t) = ("CMD=".data ++ hd) :: tl :=
    splitNl_append (by decide) hsp
  have h2 : splitNl ('\n' :: '\n' :: ("CMD=".data ++ t)) =
      [] :: [] :: (("CMD=".data ++ hd) :: tl) := by
    rw [splitNl_nl, splitNl_nl, hy]
  have hsplit : splitNl (sheb ++ ("\n\nCMD=".data ++ t)) =
      (sheb ++ []) :: [] :: ("CMD=".data ++ hd) :: tl := splitNl_append hnl h2
  rw [List.append_nil] at hsplit
  rw [inlineStrip, hsplit, List.map_cons, List.map_cons, List.map_cons,
    inlineLine_empty, inlineLine_cmd, joinNl_cons2, joinNl_cons2]
  obtain ⟨u2, hu2⟩ := joinNl_head_append "CMD=".data (inlineLine hd) (List.map inlineLine tl)
  rw [hu2]
  exact ⟨u2, rfl⟩

/-- A list equals its `rstrip` followed by the stripped whitespace. -/
theorem stripRight_decomp (l : Str) :
    l = stripRight l ++ (l.reverse.takeWhile pyWs).reverse := by
  conv_lhs => rw [← List.reverse_reverse l,
    ← List.takeWhile_append_dropWhile pyWs l.reverse]
  rw [List.reverse_append]
  rfl

theorem headI_append {a : Str} (u : Str) (h : a ≠ []) : (a ++ u).headI = a.headI := by
  cases a with
  | nil => exact absurd rfl h
  | cons c r => rfl

/-- A nonempty `strip()` result starts and ends with non-whitespace. -/
theorem pyStrip_head_last {s : Str} (hne : pyStrip s ≠ []) :
    pyWs (pyStrip s).headI = false ∧ pyWs (pyStrip s).getLastI = false := by
  constructor
  · have hsl : stripLeft s ≠ [] := by
      intro he
      apply hne
      show stripRight (stripLeft s) = []
      rw [he]
      rfl
    obtain ⟨c, r, hcr⟩ := List.exists_cons_of_ne_nil hsl
    have hc : pyWs c = false := dropWhile_head_not hcr
    have hpre := stripRight_decomp (stripLeft s)
    have : (stripLeft s).headI = (pyStrip s).headI := by
      conv_lhs => rw [hpre]
      exact headI_append _ hne
    rw [← this, hcr]
    exact hc
  · show pyWs (stripRight (stripLeft s)).getLastI = false
    unfold stripRight
    have hd : (stripLeft s).reverse.dropWhile pyWs ≠ [] := by
      intro he
      apply hne
      show stripRight (stripLeft s) = []
      unfold stripRight
      rw [he]
      rfl
    obtain ⟨c, r, hcr⟩ := List.exists_cons_of_ne_nil hd
    have hc : pyWs c = false := dropWhile_head_not hcr
    rw [hcr, List.reverse_cons, List.getLastI_eq_getLast?, List.getLast?_concat]
    exact hc




/-- C10: whenever `generate_parser` returns, the text is nonempty, starts
with a non-whitespace character and ends in exactly one newline (the body
before the final newline ends non-whitespace). -/
theorem c10_output_shape (G : GrammarOracle) (doc : Str) (cfg : Config) (out : Str)
    (h : generateParser G doc cfg = .ok out) :
    ∃ b, out = b ++ "\n".data ∧ b ≠ [] ∧
      pyWs b.headI = false ∧ pyWs b.getLastI = false := by
  unfold generateParser at h
  cases hp : parseDocstring G doc with
  | error e => rw [hp] at h; exact Except.noConfusion h
  | ok pm =>
    rw [hp] at h
    simp only [] at h
    cases hg : generateFromModel pm cfg with
    | error ge => rw [hg] at h; simp [Except.mapError] at h
    | ok o2 =>
      rw [hg] at h
      simp only [Except.mapError, Except.ok.injEq] at h
      obtain ⟨sheb, t, hs, hout⟩ := generateFromModel_shape pm cfg out (by rw [hg, h])
      obtain ⟨hnl, hsh⟩ := shebangCheck_ok_shape hs
      have hk1 : matchComment1 sheb = false := by
        rcases hsh with rfl | ⟨x, rfl⟩
        · exact matchComment1_empty
        · exact matchComment1_hash_bang x
      have hk2 : matchComment2 sheb = false := by
        rcases hsh with rfl | ⟨x, rfl⟩
        · exact matchComment2_empty
        · exact matchComment2_hash_bang x
      by_cases hsc : cfg.strip_comments
      · rw [if_pos hsc] at hout
        obtain ⟨u1, hL⟩ := lineStrip_shape sheb t hnl hk1 hk2
        obtain ⟨u2, hI⟩ := inlineStrip_shape sheb u1 hnl
        rw [hL, hI] at hout
        have hC : 'C' ∈ inlineLine sheb ++ ("\n\nCMD=".data ++ u2) :=
          List.mem_append_right _ (List.mem_append_left _ (by decide))
        have hne := pyStrip_ne_nil hC (by decide)
        obtain ⟨hh, hl⟩ := pyStrip_head_last hne
        exact ⟨_, hout, hne, hh, hl⟩
      · rw [if_neg hsc] at hout
        have hC : 'C' ∈ sheb ++ ("\n\nCMD=".data ++ t) :=
          List.mem_append_right _ (List.mem_append_left _ (by decide))
        have hne := pyStrip_ne_nil hC (by decide)
        obtain ⟨hh, hl⟩ := pyStrip_head_last hne
        exact ⟨_, hout, hne, hh, hl⟩

def c10doc : Str := "Usage: p\n".data

theorem c10_output_shape_witness :
    ∃ b, exOut (generateParser trivialOracle c10doc defaultConfig) = b ++ "\n".data ∧
      b ≠ [] ∧ pyWs b.headI = false ∧ pyWs b.getLastI = false :=
  c10_output_shape trivialOracle c10doc defaultConfig
    (exOut (generateParser trivialOracle c10doc defaultConfig)) rfl




/-! ### Word counting: the inline-comment regex cannot match inside a
valid shebang line -/

/-- Scanner state after reading `x` (starting from `b`): `true` when the
next character would start a new word. -/
def cwState (b : Bool) : Str → Bool
  | [] => b
  | c :: r => cwState (pyWs c) r

theorem cwState_append (b : Bool) (x y : Str) :
    cwState b (x ++ y) = cwState (cwState b x) y := by
  induction x generalizing b with
  | nil => rfl
  | cons c r ih => exact ih (pyWs c)

theorem cw_append (x : Str) : ∀ (y : Str) (b : Bool),
    cw b (x ++ y) = cw b x + cw (cwState b x) y := by
  induction x with
  | nil => intro y b; simp [cw, cwState]
  | cons c r ih =>
    intro y b
    cases b with
    | true =>
      rw [List.cons_append]
      by_cases hc : pyWs c = true
      · rw [show cw true (c :: (r ++ y)) = cw true (r ++ y) from by
          rw [cw, if_pos hc],
          show cw true (c :: r) = cw true r from by rw [cw, if_pos hc],
          show cwState true (c :: r) = cwState true r from by
            rw [cwState, hc]]
        exact ih y true
      · have hc' : pyWs c = false := by simpa using hc
        rw [show cw true (c :: (r ++ y)) = 1 + cw false (r ++ y) from by
          rw [cw, if_neg (by simp [hc'])],
          show cw true (c :: r) = 1 + cw false r from by
            rw [cw, if_neg (by simp [hc'])],
          show cwState true (c :: r) = cwState false r from by
            rw [cwState, hc']]
        rw [ih y false]
        omega
    | false =>
      rw [List.cons_append]
      by_cases hc : pyWs c = true
      · rw [show cw false (c :: (r ++ y)) = cw true (r ++ y) from by
          rw [cw, if_pos hc],
          show cw false (c :: r) = cw true r from by rw [cw, if_pos hc],
          show cwState false (c :: r) = cwState true r from by
            rw [cwState, hc]]
        exact ih y true
      · have hc' : pyWs c = false := by simpa using hc
        rw [show cw false (c :: (r ++ y)) = cw false (r ++ y) from by
          rw [cw, if_neg (by simp [hc'])],
          show cw false (c :: r) = cw false r from by
            rw [cw, if_neg (by simp [hc'])],
          show cwState false (c :: r) = cwState false r from by
            rw [cwState, hc']]
        exact ih y false

theorem pySplitGo_length (s : Str) : ∀ cur : Str,
    (pySplitGo cur s).length = if cur = [] then cw true s else 1 + cw false s := by
  induction s with
  | nil =>
    intro cur
    by_cases hc : cur = []
    · rw [if_pos hc, pySplitGo, if_pos hc]; rfl
    · rw [if_neg hc, pySplitGo, if_neg hc]; rfl
  | cons c r ih =>
    intro cur
    by_cases hw : pyWs c = true
    · by_cases hc : cur = []
      · rw [if_pos hc, pySplitGo, if_pos hw, if_pos hc, ih, if_pos rfl,
          show cw true (c :: r) = cw true r from by rw [cw, if_pos hw]]
      · rw [if_neg hc, pySplitGo, if_pos hw, if_neg hc, List.length_cons, ih,
          if_pos rfl,
          show cw false (c :: r) = cw true r from by rw [cw, if_pos hw]]
        omega
    · have hw' : pyWs c = false := by simpa using hw
      by_cases hc : cur = []
      · rw [if_pos hc, pySplitGo, if_neg hw, ih, if_neg (by simp),
          show cw true (c :: r) = 1 + cw false r from by
            rw [cw, if_neg (by simp [hw'])]]
      · rw [if_neg hc, pySplitGo, if_neg hw, ih, if_neg (by simp),
          show cw false (c :: r) = cw false r from by
            rw [cw, if_neg (by simp [hw'])]]

theorem pySplit_length (s : Str) : (pySplit s).length = cw true s := by
  rw [pySplit, pySplitGo_length, if_pos rfl]

theorem cw_pos_of_mem {x : Str} {d : Char} (hd : d ∈ x) (hw : pyWs d = false) :
    1 ≤ cw true x := by
  induction x with
  | nil => exact absurd hd (List.not_mem_nil d)
  | cons c r ih =>
    by_cases hc : pyWs c = true
    · rw [cw, if_pos hc]
      rcases List.mem_cons.mp hd with rfl | hd'
      · rw [hw] at hc; exact absurd hc (by simp)
      · exact ih hd'
    · rw [cw, if_neg hc]
      omega

theorem cwState_all_ws {x : Str} (hne : x ≠ []) (hall : ∀ d ∈ x, pyWs d = true) :
    ∀ b, cwState b x = true := by
  induction x with
  | nil => exact absurd rfl hne
  | cons c r ih =>
    intro b
    rw [cwState]
    cases r with
    | nil =>
      rw [cwState]
      exact hall c (List.mem_cons_self c [])
    | cons d r' =>
      exact ih (by simp) (fun e he => hall e (List.mem_cons_of_mem c he)) (pyWs c)

theorem cw_all_ws {y : Str} (hall : ∀ d ∈ y, pyWs d = true) : ∀ b, cw b y = 0 := by
  induction y with
  | nil => intro b; cases b <;> rfl
  | cons c r ih =>
    intro b
    have hc := hall c (List.mem_cons_self c r)
    cases b with
    | true =>
      rw [cw, if_pos hc]
      exact ih (fun e he => hall e (List.mem_cons_of_mem c he)) true
    | false =>
      rw [cw, if_pos hc]
      exact ih (fun e he => hall e (List.mem_cons_of_mem c he)) true

theorem cw_stripLeft (w : Str) : cw true (stripLeft w) = cw true w := by
  induction w with
  | nil => rfl
  | cons c r ih =>
    by_cases hc : pyWs c = true
    · rw [show stripLeft (c :: r) = stripLeft r from by
        unfold stripLeft; rw [List.dropWhile_cons, if_pos (by simp [hc])],
        show cw true (c :: r) = cw true r from by rw [cw, if_pos hc]]
      exact ih
    · rw [stripLeft_cons_not (by simpa using hc)]

theorem cw_stripRight (x : Str) (b : Bool) : cw b (stripRight x) = cw b x := by
  conv_rhs => rw [stripRight_decomp x]
  rw [cw_append]
  have hall : ∀ d ∈ (x.reverse.takeWhile pyWs).reverse, pyWs d = true := by
    intro d hd
    rw [List.mem_reverse] at hd
    exact List.mem_takeWhile_imp hd
  rw [cw_all_ws hall]
  omega

theorem cw_pyStrip (w : Str) : cw true (pyStrip w) = cw true w := by
  rw [pyStrip, cw_stripRight, cw_stripLeft]




theorem inlineLine_eq_self_of {l : Str}
    (h : ∀ u s, l = u ++ s → matchInl s = false) : inlineLine l = l := by
  induction l with
  | nil => rfl
  | cons c r ih =>
    rw [inlineLine, if_neg (by rw [h [] (c :: r) rfl]; simp)]
    rw [ih (fun u s hs => h (c :: u) s (by rw [hs, List.cons_append]))]

/-- Structure of a line suffix matched by the inline-comment regex. -/
theorem matchInl_decomp {s : Str} (hm : matchInl s = true) :
    ∃ c t, s = s.takeWhile (fun d => d = ' ') ++ ('#' :: ' ' :: c :: t) ∧
      s.takeWhile (fun d => d = ' ') ≠ [] := by
  unfold matchInl at hm
  split at hm
  · split at hm
    · rename_i c t hd
      refine ⟨c, t, ?_, ?_⟩
      · rw [← hd]
        exact (List.takeWhile_append_dropWhile _ _).symm
      · simp [List.takeWhile_cons]
    · exact absurd hm (by simp)
  · exact absurd hm (by simp)

theorem getLastI_append_right {a b : Str} (hb : b ≠ []) :
    (a ++ b).getLastI = b.getLastI := by
  rw [List.getLastI_eq_getLast?, List.getLastI_eq_getLast?,
    List.getLast?_append_of_ne_nil a hb]

theorem getLastI_mem {l : Str} (h : l ≠ []) : l.getLastI ∈ l := by
  rw [List.getLastI_eq_getLast?]
  obtain ⟨c, r, rfl⟩ := List.exists_cons_of_ne_nil h
  have := @List.getLast?_isSome Char (c :: r)
  cases hg : (c :: r).getLast? with
  | none => rw [hg] at this; simp at this
  | some d =>
    have hmem := List.mem_of_mem_getLast? hg
    simpa [hg] using hmem

/-- A line with non-whitespace first and last characters on which the
inline-comment regex matches somewhere has at least three words. -/
theorem three_words_of_matchInl {v u s : Str} (hv : v = u ++ s)
    (hm : matchInl s = true) (hvne : v ≠ [])
    (hhead : pyWs v.headI = false) (hlast : pyWs v.getLastI = false) :
    3 ≤ cw true v := by
  obtain ⟨c, t, hsd, htw⟩ := matchInl_decomp hm
  have hu : u ≠ [] := by
    intro hu0
    rw [hu0, List.nil_append] at hv
    subst hv
    obtain ⟨d, tw', htw'⟩ := List.exists_cons_of_ne_nil htw
    have hd : d = ' ' := by
      have hmem : d ∈ List.takeWhile (fun d => decide (d = ' ')) v := by
        rw [htw']
        exact List.mem_cons_self d tw'
      have := List.mem_takeWhile_imp hmem
      simpa using this
    rw [hsd, htw', headI_append _ (by simp)] at hhead
    rw [hd] at hhead
    simp [pyWs] at hhead
  -- v = (u ++ tw) ++ ('#' :: ' ' :: c :: t)
  have hv2 : v = (u ++ s.takeWhile (fun d => d = ' ')) ++ ('#' :: ' ' :: c :: t) := by
    conv_lhs => rw [hv, hsd]
    rw [List.append_assoc]
  have htwall : ∀ d ∈ s.takeWhile (fun d => d = ' '), pyWs d = true := by
    intro d hd
    have := List.mem_takeWhile_imp hd
    have hd' : d = ' ' := by simpa using this
    rw [hd']
    rfl
  have hstate : cwState true (u ++ s.takeWhile (fun d => d = ' ')) = true := by
    rw [cwState_append]
    exact cwState_all_ws htw htwall _
  have hcw : cw true v =
      cw true (u ++ s.takeWhile (fun d => d = ' ')) + cw true ('#' :: ' ' :: c :: t) := by
    rw [hv2, cw_append, hstate]
  -- words in the prefix: at least one (the head of u is non-whitespace)
  obtain ⟨u0, u', rfl⟩ := List.exists_cons_of_ne_nil hu
  have hu0 : pyWs u0 = false := by
    rw [hv, List.cons_append, List.headI] at hhead
    exact hhead
  have hpre : 1 ≤ cw true ((u0 :: u') ++ s.takeWhile (fun d => d = ' ')) :=
    cw_pos_of_mem (List.mem_append_left _ (List.mem_cons_self u0 u')) hu0
  -- words in the tail: the '#' and at least one word after the space
  have hlast2 : pyWs (c :: t).getLastI = false := by
    rw [hv2, getLastI_append_right (by simp)] at hlast
    rw [show '#' :: ' ' :: c :: t = ['#', ' '] ++ (c :: t) from rfl,
      getLastI_append_right (by simp)] at hlast
    exact hlast
  have htail : 1 ≤ cw true (c :: t) :=
    cw_pos_of_mem (getLastI_mem (by simp)) hlast2
  have e1 : cw true ('#' :: ' ' :: c :: t) = 1 + cw false (' ' :: c :: t) := by
    conv_lhs => rw [cw]
    rw [if_neg (show ¬ pyWs '#' = true from by decide)]
  have e2 : cw false (' ' :: c :: t) = cw true (c :: t) := by
    conv_lhs => rw [cw]
    rw [if_pos (show pyWs ' ' = true from by decide)]
  have hsharp : cw true ('#' :: ' ' :: c :: t) = 1 + cw true (c :: t) := by
    rw [e1, e2]
  omega

/-- The inline-comment regex cannot fire anywhere on the generated shebang
line `#!` + stripped shebang text when the shebang has at most two words. -/
theorem inlineLine_shebang {w : Str} (hw : ¬ 2 < (pySplit w).length) :
    inlineLine ("#!".data ++ pyStrip w) = "#!".data ++ pyStrip w := by
  apply inlineLine_eq_self_of
  intro u s hs
  by_contra hm0
  have hm : matchInl s = true := by simpa using hm0
  -- the match cannot start at the '#' or the '!'
  obtain ⟨c, t, hsd, htw⟩ := matchInl_decomp hm
  obtain ⟨d, tw', htw'⟩ := List.exists_cons_of_ne_nil htw
  have hd : d = ' ' := by
    have := List.mem_takeWhile_imp (htw' ▸ List.mem_cons_self d tw')
    simpa using this
  have hs0 : s.headI = ' ' := by
    rw [hsd, htw', headI_append _ (by simp), hd]
    rfl
  cases u with
  | nil =>
    rw [List.nil_append] at hs
    rw [← hs] at hs0
    simp [List.headI] at hs0
  | cons c1 u1 =>
    cases u1 with
    | nil =>
      have h2 : s = '!' :: pyStrip w := by
        have h0 := hs
        rw [show "#!".data ++ pyStrip w = '#' :: '!' :: pyStrip w from rfl] at h0
        exact ((List.cons.injEq _ _ _ _).mp h0).2.symm
      rw [h2] at hs0
      simp [List.headI] at hs0
    | cons c2 u2 =>
      have hsplit : pyStrip w = u2 ++ s := by
        have := hs
        rw [show "#!".data ++ pyStrip w = '#' :: '!' :: pyStrip w from rfl] at this
        have h1 := (List.cons.injEq _ _ _ _).mp this
        have h2 := (List.cons.injEq _ _ _ _).mp h1.2
        exact h2.2
      have hvne : pyStrip w ≠ [] := by
        rw [hsplit]
        intro he
        have := List.append_eq_nil.mp he
        rw [this.2] at hm
        simp [matchInl] at hm
      obtain ⟨hh, hl⟩ := pyStrip_head_last hvne
      have h3 := three_words_of_matchInl hsplit hm hvne hh hl
      rw [cw_pyStrip] at h3
      rw [← pySplit_length] at h3
      omega




/-! ### Shebang handling (claim C9) -/

theorem shebangCheck_empty : shebangCheck [] = .ok [] := rfl

theorem shebangCheck_invalid {w : Str} (hne : w ≠ [])
    (hinv : '\n' ∈ w ∨ 2 < (pySplit w).length) :
    shebangCheck w = .error (.invalidShebang w) := by
  unfold shebangCheck
  rw [if_pos hne, if_pos hinv]

theorem shebangCheck_prepend {w : Str} (hne : w ≠ [])
    (hval : ¬('\n' ∈ w ∨ 2 < (pySplit w).length))
    (hnp : isPre "#!".data w = false) :
    shebangCheck w = .ok ("#!".data ++ pyStrip w) := by
  unfold shebangCheck
  rw [if_pos hne, if_neg hval, if_pos (by simp [hnp])]

theorem shebangCheck_error {w : Str} {e : GenErr} (h : shebangCheck w = .error e) :
    e = .invalidShebang w ∧ w ≠ [] ∧ ('\n' ∈ w ∨ 2 < (pySplit w).length) := by
  unfold shebangCheck at h
  split at h
  · rename_i hne
    split at h
    · rename_i hinv
      exact ⟨(Except.error.injEq _ _ ▸ h).symm, hne, hinv⟩
    · split at h <;> exact Except.noConfusion h
  · exact Except.noConfusion h

theorem generateFromModel_shebang_error {pm : ParseModel} {cfg : Config} {e : GenErr}
    (h : shebangCheck cfg.shebang = .error e) :
    generateFromModel pm cfg = .error e := by
  simp [generateFromModel, h, Bind.bind, Except.bind]

theorem generateFromModel_error_inv {pm : ParseModel} {cfg : Config} {s : Str}
    (h : generateFromModel pm cfg = .error (.invalidShebang s)) :
    shebangCheck cfg.shebang = .error (.invalidShebang s) := by
  cases hs : shebangCheck cfg.shebang with
  | error e =>
    rw [generateFromModel_shebang_error hs] at h
    exact h
  | ok sheb =>
    cases hb : buildCases cfg.minimal (maxLongLen pm.options) pm.options with
    | error b =>
      simp only [generateFromModel, hs, hb, Bind.bind, Except.bind,
        Except.mapError, Except.error.injEq] at h
      exact absurd h (by simp)
    | ok cnd =>
      simp [generateFromModel, hs, hb, Bind.bind, Except.bind, Except.mapError] at h

theorem isPre_append_self (a z : Str) : isPre a (a ++ z) = true := by
  induction a with
  | nil => rfl
  | cons c r ih => simp [isPre, ih]

theorem dropWhile_append_all {p : Char → Bool} {a : Str} (b : Str)
    (hall : ∀ d ∈ a, p d = true) :
    (a ++ b).dropWhile p = b.dropWhile p := by
  induction a with
  | nil => rfl
  | cons c r ih =>
    rw [List.cons_append, List.dropWhile_cons,
      if_pos (hall c (List.mem_cons_self c r)),
      ih (fun d hd => hall d (List.mem_cons_of_mem c hd))]

/-- Final `strip`+newline keeps the first line exactly when it starts
non-whitespace and the `CMD=` anchor follows. -/
theorem firstLine_pyStrip_shape (c0 : Char) (x u : Str) (h0 : pyWs c0 = false)
    (hnl : '\n' ∉ c0 :: x) :
    firstLine (pyStrip ((c0 :: x) ++ ("\n\nCMD=".data ++ u)) ++ "\n".data) = c0 :: x := by
  have hC : 'C' ∈ ("\n\nCMD=".data ++ u) := List.mem_append_left _ (by decide)
  have h1 : stripLeft ((c0 :: x) ++ ("\n\nCMD=".data ++ u)) =
      (c0 :: x) ++ ("\n\nCMD=".data ++ u) := by
    rw [List.cons_append]
    exact stripLeft_cons_not h0
  have h2 : stripRight ((c0 :: x) ++ ("\n\nCMD=".data ++ u)) =
      (c0 :: x) ++ stripRight ("\n\nCMD=".data ++ u) := stripRight_append hC (by decide)
  have hC2 : 'C' ∈ ('\n' :: ("CMD=".data ++ u)) :=
    List.mem_cons_of_mem _ (List.mem_append_left _ (by decide))
  have h3 : stripRight ("\n\nCMD=".data ++ u) =
      '\n' :: stripRight ('\n' :: ("CMD=".data ++ u)) := by
    show stripRight (['\n'] ++ ('\n' :: ("CMD=".data ++ u))) = _
    rw [stripRight_append hC2 (by decide)]
    rfl
  unfold pyStrip
  rw [h1, h2, h3]
  unfold firstLine
  rw [List.append_assoc, List.cons_append]
  exact takeWhile_append_nl _ hnl

/-- The output of a shebang-less generation starts with `CMD=`. -/
theorem cmd_prefix_out (u : Str) :
    isPre "CMD=".data (pyStrip ("\n\nCMD=".data ++ u) ++ "\n".data) = true := by
  have h1 : stripLeft ("\n\nCMD=".data ++ u) = "CMD=".data ++ u := rfl
  unfold pyStrip
  rw [h1]
  by_cases hnz : ∃ d ∈ u, pyWs d = false
  · obtain ⟨d, hd, hdw⟩ := hnz
    rw [stripRight_append hd hdw, List.append_assoc]
    exact isPre_append_self _ _
  · push_neg at hnz
    have hall : ∀ d ∈ u, pyWs d = true := by
      intro d hd
      have := hnz d hd
      revert this
      cases pyWs d <;> simp
    have h2 : stripRight ("CMD=".data ++ u) = "CMD=".data := by
      unfold stripRight
      rw [List.reverse_append,
        dropWhile_append_all _ (fun d hd => hall d (List.mem_reverse.mp hd))]
      rfl
    rw [h2]
    exact isPre_append_self _ _




/-- C9 (amended): the invalid-shebang exception is raised iff docstring
parsing succeeds *and* the shebang is non-empty with a newline or more
than two words (a parse failure preempts the check); on success a valid
non-`#!` shebang is emitted with `#!` prepended as the first line, and an
empty shebang yields output beginning directly with the `CMD=` line. -/
theorem c9_shebang_handling (G : GrammarOracle) (doc : Str) (cfg : Config) :
    ((∃ s, generateParser G doc cfg = .error (.gen (.invalidShebang s))) ↔
      ((∃ pm, parseDocstring G doc = .ok pm) ∧ cfg.shebang ≠ [] ∧
        ('\n' ∈ cfg.shebang ∨ 2 < (pySplit cfg.shebang).length))) ∧
    (∀ out, generateParser G doc cfg = .ok out →
      ((cfg.shebang ≠ [] ∧ isPre "#!".data cfg.shebang = false) →
        firstLine out = "#!".data ++ pyStrip cfg.shebang) ∧
      (cfg.shebang = [] → isPre "CMD=".data out = true)) := by
  constructor
  · constructor
    · rintro ⟨s, he⟩
      unfold generateParser at he
      cases hp : parseDocstring G doc with
      | error e =>
        rw [hp] at he
        simp only [] at he
        exact absurd he (by simp)
      | ok pm =>
        rw [hp] at he
        simp only [] at he
        cases hg : generateFromModel pm cfg with
        | ok o => rw [hg] at he; simp [Except.mapError] at he
        | error ge =>
          rw [hg] at he
          simp only [Except.mapError, Except.error.injEq] at he
          have hge : ge = .invalidShebang s := by
            injection he with h2
          rw [hge] at hg
          obtain ⟨_, hne, hinv⟩ := shebangCheck_error (generateFromModel_error_inv hg)
          exact ⟨⟨pm, rfl⟩, hne, hinv⟩
    · rintro ⟨⟨pm, hpm⟩, hne, hinv⟩
      refine ⟨cfg.shebang, ?_⟩
      unfold generateParser
      rw [hpm]
      simp only []
      rw [@generateFromModel_shebang_error pm cfg _ (shebangCheck_invalid hne hinv)]
      rfl
  · intro out h
    unfold generateParser at h
    cases hp : parseDocstring G doc with
    | error e =>
      rw [hp] at h
      simp only [] at h
      exact Except.noConfusion h
    | ok pm =>
      rw [hp] at h
      simp only [] at h
      cases hg : generateFromModel pm cfg with
      | error ge => rw [hg] at h; simp [Except.mapError] at h
      | ok o2 =>
        rw [hg] at h
        simp only [Except.mapError, Except.ok.injEq] at h
        subst h
        obtain ⟨sheb, t, hs, hout⟩ := generateFromModel_shape pm cfg _ hg
        constructor
        · rintro ⟨hne, hnp⟩
          have hval : ¬('\n' ∈ cfg.shebang ∨ 2 < (pySplit cfg.shebang).length) := by
            intro hv
            rw [shebangCheck_invalid hne hv] at hs
            exact Except.noConfusion hs
          have hsheb : sheb = "#!".data ++ pyStrip cfg.shebang := by
            rw [shebangCheck_prepend hne hval hnp] at hs
            injection hs with h2
            exact h2.symm
          subst hsheb
          have hnl : '\n' ∉ "#!".data ++ pyStrip cfg.shebang :=
            (shebangCheck_ok_shape hs).1
          by_cases hsc : cfg.strip_comments
          · rw [if_pos hsc] at hout
            obtain ⟨u1, hL⟩ := lineStrip_shape _ t hnl
              (matchComment1_hash_bang (pyStrip cfg.shebang))
              (matchComment2_hash_bang (pyStrip cfg.shebang))
            obtain ⟨u2, hI⟩ := inlineStrip_shape _ u1 hnl
            rw [hL, hI,
              inlineLine_shebang (fun hgt => hval (Or.inr hgt))] at hout
            rw [hout]
            exact firstLine_pyStrip_shape '#' ('!' :: pyStrip cfg.shebang) u2
              (by decide) hnl
          · rw [if_neg hsc] at hout
            rw [hout]
            exact firstLine_pyStrip_shape '#' ('!' :: pyStrip cfg.shebang) t
              (by decide) hnl
        · intro hz
          rw [hz] at hs
          rw [shebangCheck_empty] at hs
          have hsheb : sheb = [] := by
            injection hs with h2
            exact h2.symm
          subst hsheb
          by_cases hsc : cfg.strip_comments
          · rw [if_pos hsc] at hout
            obtain ⟨u1, hL⟩ := lineStrip_shape [] t (by simp)
              matchComment1_empty matchComment2_empty
            obtain ⟨u2, hI⟩ := inlineStrip_shape [] u1 (by simp)
            rw [hL, hI, inlineLine_empty, List.nil_append] at hout
            rw [hout]
            exact cmd_prefix_out u2
          · rw [if_neg hsc] at hout
            rw [List.nil_append] at hout
            rw [hout]
            exact cmd_prefix_out t

def c9doc : Str := "Usage: a\n\nUsage: b\n".data

def c9cfg : Config := { defaultConfig with shebang := "a b c".data }

/-- C9 fails on the code as stated: with an invalid shebang *and* an
ambiguous docstring, `generate_parser` raises the `GrammarError` — no
exception mentioning the shebang — because parsing precedes the shebang
check. -/
theorem c9_counterexample_parse_preempts :
    c9cfg.shebang ≠ [] ∧ 2 < (pySplit c9cfg.shebang).length ∧
    generateParser trivialOracle c9doc c9cfg =
      .error (.parse (.grammarLocal
        "More than one \"usage:\" (case-insensitive).".data)) := by
  decide

def c9okdoc : Str := "Usage: p\n".data

def c9okcfg : Config := { defaultConfig with shebang := "env sh".data }

theorem c9_shebang_handling_witness :
    firstLine (exOut (generateParser trivialOracle c9okdoc c9okcfg)) =
      "#!".data ++ pyStrip c9okcfg.shebang :=
  ((c9_shebang_handling trivialOracle c9okdoc c9okcfg).2
    (exOut (generateParser trivialOracle c9okdoc c9okcfg)) rfl).1
    ⟨by decide, by decide⟩

end Sopix
